import Mathlib

/-!
# moonshine-cli: the WAV container reader `load_wav`

A shallow embedding of `load_wav` (src/nix/moonshine-cli.cpp, lines 18-127) and
the properties of its natural-language specification.

Modelling conventions.

* A file that was opened is the list of its bytes; the `FILE*` stream is the list
  of the bytes from the current position to the end of the file.  `fread` takes
  from the front of that list, `fseek(file, n, SEEK_CUR)` with `n ≥ 0` drops `n`
  bytes.  Seeking past the end of the file leaves the empty stream, on which every
  later `fread` reads nothing, as on a real file.
* The path names a regular file, on which `fseek` succeeds.  `fseek` takes a `long`;
  the model is for a platform whose `long` has 64 bits, so that every `uint32_t`
  chunk size is a non-negative offset.
* Multi-byte variables are filled by `fread` on a little-endian machine.  The fmt
  fields are read without a look at what `fread` returns; on a short read the bytes
  that were read are stored and the others keep the initial 0 of the variable.
* Every exit of the process (`std::exit(1)` after a message on stderr) is a value
  of `WavError`; the names are those of the specification's error taxonomy.
* `float` samples are rationals: the conversion of an `int16_t` to `float` is exact
  (24-bit significand) and so is the division by `32768.0f`, a power of two
  (`pcm_to_float_binary32` below).
* Whether `result.samples.resize(num_samples)` of line 115 gets its memory is not
  decided by the file: it is the parameter `alloc` of `read_pcm`, `load_wav_alloc` and
  `load_wav_trace`.  When it does not, `resize` throws `std::bad_alloc`, which nothing
  catches.  `load_wav` is the run in which the allocation succeeds.
-/

namespace Moonshine

/-- One byte of the file. -/
abbrev Byte := UInt8

/-- The ways `load_wav` ends without a result: the six exits behind a message of the
decoder, the exit `IoError` when the file cannot be opened, and `BadAlloc`, the
`std::bad_alloc` of line 115 that nothing catches. -/
inductive WavError where
  /-- Exit with `failed to open WAV file` (line 23). -/
  | IoError
  /-- Exit with `not a RIFF file` (line 32) or `not a WAVE file` (line 42). -/
  | MalformedContainer
  /-- Exit with `no fmt chunk in` (line 60). -/
  | MissingFormatChunk
  /-- Exit with `fmt chunk too small in` (line 70). -/
  | FormatChunkTooSmall
  /-- Exit with `only 16-bit PCM WAV files are supported` (line 88). -/
  | UnsupportedFormat
  /-- Exit with `no data chunk in` (line 104). -/
  | MissingDataChunk
  /-- Exit with `no audio samples in` (line 112). -/
  | EmptyAudio
  /-- No exit of the decoder: `resize` (line 115) throws `std::bad_alloc`, the exception
  leaves `load_wav` and `main` uncaught and the process is terminated. -/
  | BadAlloc
  deriving DecidableEq, Repr

/-- The source's `struct WavData`: the samples (`std::vector<float>`) and the sample
rate (`int32_t`). -/
structure WavData where
  samples : List ℚ
  sample_rate : Int
  deriving DecidableEq

/-- The string literal `RIFF` of line 30, with its terminating NUL. -/
def RIFF_lit : List Byte := [0x52, 0x49, 0x46, 0x46, 0]

/-- The string literal `WAVE` of line 40, with its terminating NUL. -/
def WAVE_lit : List Byte := [0x57, 0x41, 0x56, 0x45, 0]

/-- The string literal `fmt ` of line 52, with its terminating NUL. -/
def fmt_lit : List Byte := [0x66, 0x6D, 0x74, 0x20, 0]

/-- The string literal `data` of line 96, with its terminating NUL. -/
def data_lit : List Byte := [0x64, 0x61, 0x74, 0x61, 0]

/-- The C library's `strncmp(a, b, n)`: compares at most `n` characters, as unsigned
chars, and stops after a NUL.  A character past the end of a list reads as NUL;
`load_wav` never reads one, its buffers hold 4 bytes and its literals 5. -/
def strncmp : List Byte → List Byte → Nat → Int
  | _, _, 0 => 0
  | [], [], _ + 1 => 0
  | [], b :: _, _ + 1 => if b = 0 then 0 else -(b.toNat : Int)
  | a :: _, [], _ + 1 => if a = 0 then 0 else (a.toNat : Int)
  | a :: as, b :: bs, n + 1 =>
    if a ≠ b then (a.toNat : Int) - (b.toNat : Int)
    else if a = 0 then 0
    else strncmp as bs n

/-- The value a zero-initialised unsigned variable holds after `fread` stored the
bytes `bs` at its address on a little-endian machine.  With fewer bytes than the
variable has (a short read) the bytes that were read are the low-order ones and the
others keep their initial 0. -/
def le_value : List Byte → Nat
  | [] => 0
  | b :: bs => b.toNat + 256 * le_value bs

/-- Reinterpretation of a 16-bit pattern as `int16_t` (two's complement). -/
def to_int16 (u : Nat) : Int :=
  if u < 32768 then (u : Int) else (u : Int) - 65536

/-- The cast `static_cast<int32_t>(sample_rate)` of a `uint32_t` (line 125). -/
def to_int32 (u : Nat) : Int :=
  if u < 2147483648 then (u : Int) else (u : Int) - 4294967296

/-- The expression `static_cast<float>(sample) / 32768.0f` (line 122). -/
def pcm_to_float (sample : Int) : ℚ := (sample : ℚ) / 32768

/-- Lines 27-44: the RIFF magic, the 4 skipped bytes of the RIFF size, the WAVE
magic.  Returns the stream positioned after them. -/
def read_riff_header (file : List Byte) : Except WavError (List Byte) :=
  let riff_header := file.take 4
  let file := file.drop 4
  if riff_header.length ≠ 4 ∨ strncmp riff_header RIFF_lit 4 ≠ 0 then
    .error .MalformedContainer
  else
    let file := file.drop 4
    let wave_header := file.take 4
    let file := file.drop 4
    if wave_header.length ≠ 4 ∨ strncmp wave_header WAVE_lit 4 ≠ 0 then
      .error .MalformedContainer
    else .ok file

/-- The chunk scan of lines 50-57 and 94-101, one loop iteration per unit of fuel.
`some (chunk_size, file)` is the exit through `found = true; break` with the stream
after the 8-byte chunk header; `none` is an exit with `found` still false (the tag
or the size could not be read). -/
def find_chunk_loop (tag : List Byte) : Nat → List Byte → Option (Nat × List Byte)
  | 0, _ => none
  | fuel + 1, file =>
    let chunk_id := file.take 4
    let file := file.drop 4
    if chunk_id.length ≠ 4 then none
    else
      let size_bytes := file.take 4
      let file := file.drop 4
      if size_bytes.length ≠ 4 then none
      else
        let chunk_size := le_value size_bytes
        if strncmp chunk_id tag 4 = 0 then some (chunk_size, file)
        else find_chunk_loop tag fuel (file.drop chunk_size)

/-- The chunk scan run to completion: every iteration that continues has consumed
the 8 bytes of a header, so as many iterations as the stream has bytes are never
used up (`find_chunk_loop_fuel`, `find_chunk_eq`). -/
def find_chunk (tag : List Byte) (file : List Byte) : Option (Nat × List Byte) :=
  find_chunk_loop tag file.length file

/-- Lines 64-90: the fmt chunk of declared size `chunk_size`.  Returns
`(sample_rate, bits_per_sample, file)` with the stream after the chunk. -/
def read_fmt (chunk_size : Nat) (file : List Byte) : Except WavError (Nat × Nat × List Byte) :=
  if chunk_size < 16 then .error .FormatChunkTooSmall
  else
    let audio_format := le_value (file.take 2)
    let file := file.drop 2
    let _num_channels := le_value (file.take 2)
    let file := file.drop 2
    let sample_rate := le_value (file.take 4)
    let file := file.drop 4
    let _byte_rate := le_value (file.take 4)
    let file := file.drop 4
    let _block_align := le_value (file.take 2)
    let file := file.drop 2
    let bits_per_sample := le_value (file.take 2)
    let file := file.drop 2
    let file := if chunk_size > 16 then file.drop (chunk_size - 16) else file
    if audio_format ≠ 1 ∨ bits_per_sample ≠ 16 then .error .UnsupportedFormat
    else .ok (sample_rate, bits_per_sample, file)

/-- The sample loop of lines 116-123 with `num_samples` iterations left: a sample
is two bytes; when two bytes cannot be read the vector is cut at the samples read
so far. -/
def read_samples : Nat → List Byte → List ℚ
  | 0, _ => []
  | n + 1, b0 :: b1 :: file =>
    pcm_to_float (to_int16 (le_value [b0, b1])) :: read_samples n file
  | _ + 1, _ => []

/-- Lines 108-126: the data chunk of declared size `chunk_size`.  The vector is
resized to the declared number of samples before any sample is read (line 115);
`alloc n` says whether `resize(n)` gets its memory in this run. -/
def read_pcm (alloc : Nat → Bool) (chunk_size bits_per_sample sample_rate : Nat)
    (file : List Byte) : Except WavError WavData :=
  let num_samples := chunk_size / (bits_per_sample / 8)
  if num_samples = 0 then .error .EmptyAudio
  else if alloc num_samples then
    .ok { samples := read_samples num_samples file, sample_rate := to_int32 sample_rate }
  else .error .BadAlloc

/-- Lines 46-106: the scan for the fmt chunk, the fmt chunk, the scan for the data
chunk, on the stream after the envelope.  Returns
`(sample_rate, bits_per_sample, chunk_size, file)`: the two fmt fields that are
used later, the declared size of the data chunk and the stream after the data
chunk's header. -/
def locate_data (file : List Byte) : Except WavError (Nat × Nat × Nat × List Byte) :=
  match find_chunk fmt_lit file with
  | none => .error .MissingFormatChunk
  | some (chunk_size, file) =>
    match read_fmt chunk_size file with
    | .error e => .error e
    | .ok (sample_rate, bits_per_sample, file) =>
      match find_chunk data_lit file with
      | none => .error .MissingDataChunk
      | some (chunk_size, file) => .ok (sample_rate, bits_per_sample, chunk_size, file)

/-- Lines 27-106: everything before the comment `Read PCM data`, the envelope and then
`locate_data`. -/
def seek_data (file : List Byte) : Except WavError (Nat × Nat × Nat × List Byte) :=
  match read_riff_header file with
  | .error e => .error e
  | .ok file => locate_data file

/-- The source's `load_wav` in a run in which `resize(n)` succeeds exactly when
`alloc n`.  The argument `opened` is what `fopen` gave: `none` when the file could not
be opened, else the bytes of the file. -/
def load_wav_alloc (alloc : Nat → Bool) (opened : Option (List Byte)) :
    Except WavError WavData :=
  match opened with
  | none => .error .IoError
  | some file =>
    match seek_data file with
    | .error e => .error e
    | .ok (sample_rate, bits_per_sample, chunk_size, file) =>
      read_pcm alloc chunk_size bits_per_sample sample_rate file

/-- The source's `load_wav` in a run in which the allocation of line 115 succeeds. -/
def load_wav (opened : Option (List Byte)) : Except WavError WavData :=
  load_wav_alloc (fun _ => true) opened

/-- A run in which `resize(n)` gets its memory for at most `max_floats` samples. -/
def heap_limit (max_floats : Nat) : Nat → Bool :=
  fun n => decide (n ≤ max_floats)

/-- The four characters `RIFF`. -/
def RIFF : List Byte := [0x52, 0x49, 0x46, 0x46]

/-- The four characters `WAVE`. -/
def WAVE : List Byte := [0x57, 0x41, 0x56, 0x45]

/-- The four characters `fmt ` (with the trailing space). -/
def fmt_tag : List Byte := [0x66, 0x6D, 0x74, 0x20]

/-- The four characters `data`. -/
def data_tag : List Byte := [0x64, 0x61, 0x74, 0x61]

/-- The minimal file of the specification's concrete scenario: fmt chunk of size 16
(format 1, 1 channel, rate 16000, byte rate 32000, block align 2, 16 bits) and a
data chunk of size 4 holding the words 16384 and -16384. -/
def minimal_wav : List Byte :=
  RIFF ++ [40, 0, 0, 0] ++ WAVE ++ fmt_tag ++ [16, 0, 0, 0] ++ [1, 0] ++ [1, 0] ++
    [0x80, 0x3E, 0, 0] ++ [0x00, 0x7D, 0, 0] ++ [2, 0] ++ [16, 0] ++
    data_tag ++ [4, 0, 0, 0] ++ [0x00, 0x40, 0x00, 0xC0] ++ []


/-- The 16-bit PCM words of a payload in file order: each pair of bytes as a signed
little-endian 16-bit integer; a last odd byte is no word. -/
def pcm_words : List Byte → List Int
  | b0 :: b1 :: rest => to_int16 (b0.toNat + 256 * b1.toNat) :: pcm_words rest
  | _ => []

/-- Re-encoding of a decoded sample to 16-bit PCM: `round(sample * 32768)`. -/
def encode_pcm (sample : ℚ) : Int := round (sample * 32768)

/-- A file whose fmt chunk claims 8 bits per sample (audio format 1, size 16),
followed by a well-formed data chunk. -/
def eight_bit_wav : List Byte :=
  RIFF ++ [40, 0, 0, 0] ++ WAVE ++ fmt_tag ++ [16, 0, 0, 0] ++
    [1, 0, 1, 0, 0x80, 0x3E, 0, 0, 0x80, 0x3E, 0, 0, 1, 0, 8, 0] ++
    data_tag ++ [4, 0, 0, 0] ++ [0x00, 0x40, 0x00, 0xC0]

/-- A file whose data chunk declares size 1 and is followed by four bytes. -/
def empty_data_wav : List Byte :=
  RIFF ++ [40, 0, 0, 0] ++ WAVE ++ fmt_tag ++ [16, 0, 0, 0] ++ [1, 0] ++ [1, 0] ++
    [0x80, 0x3E, 0, 0] ++ [0x00, 0x7D, 0, 0] ++ [2, 0] ++ [16, 0] ++
    data_tag ++ [1, 0, 0, 0] ++ [0x00, 0x40, 0x00, 0xC0]

/-- The four characters `LIST`. -/
def LIST_tag : List Byte := [0x4C, 0x49, 0x53, 0x54]

/-- A `LIST` chunk of declared size 2 with its 2 payload bytes. -/
def list_chunk : List Byte := LIST_tag ++ [2, 0, 0, 0] ++ [0xAA, 0xBB]

/-- The minimal file with `list_chunk` inserted right after `WAVE`. -/
def list_before_fmt_wav : List Byte :=
  RIFF ++ [40, 0, 0, 0] ++ WAVE ++ list_chunk ++ fmt_tag ++ [16, 0, 0, 0] ++ [1, 0] ++ [1, 0] ++
    [0x80, 0x3E, 0, 0] ++ [0x00, 0x7D, 0, 0] ++ [2, 0] ++ [16, 0] ++
    data_tag ++ [4, 0, 0, 0] ++ [0x00, 0x40, 0x00, 0xC0]

/-- The minimal file with `list_chunk` inserted right after the fmt chunk. -/
def list_after_fmt_wav : List Byte :=
  RIFF ++ [40, 0, 0, 0] ++ WAVE ++ fmt_tag ++ [16, 0, 0, 0] ++ [1, 0] ++ [1, 0] ++
    [0x80, 0x3E, 0, 0] ++ [0x00, 0x7D, 0, 0] ++ [2, 0] ++ [16, 0] ++ list_chunk ++
    data_tag ++ [4, 0, 0, 0] ++ [0x00, 0x40, 0x00, 0xC0]

/-- The chunk walk of the specification (§4.1, steps 4 and 5) that runs out of stream
before it meets `tag`: either no complete 8-byte header is left (nothing, or a partial
header), or the header that is read carries another tag and the walk that continues
`size` bytes behind it runs out. -/
inductive WalkExhausts (tag : List Byte) : List Byte → Prop
  | short (s : List Byte) : s.length < 8 → WalkExhausts tag s
  | skip (id szb rest : List Byte) : id.length = 4 → szb.length = 4 → id ≠ tag →
      WalkExhausts tag (rest.drop (le_value szb)) → WalkExhausts tag (id ++ szb ++ rest)

/-- A file with a well-formed data chunk (size 4, the words 16384 and -16384) before a
valid 16-bit PCM fmt chunk, and nothing behind the fmt chunk. -/
def data_first_wav : List Byte :=
  RIFF ++ [40, 0, 0, 0] ++ WAVE ++ data_tag ++ [4, 0, 0, 0] ++ [0x00, 0x40, 0x00, 0xC0] ++
    fmt_tag ++ [16, 0, 0, 0] ++ [1, 0, 1, 0, 0x80, 0x3E, 0, 0, 0x00, 0x7D, 0, 0, 2, 0, 16, 0]

/-- A file whose only chunk is `list_chunk`, followed by three bytes of a next header. -/
def no_fmt_wav : List Byte :=
  RIFF ++ [40, 0, 0, 0] ++ WAVE ++ list_chunk ++ [0x66, 0x6D, 0x74]

/-- A file with a valid fmt chunk and then only `list_chunk`. -/
def no_data_wav : List Byte :=
  RIFF ++ [40, 0, 0, 0] ++ WAVE ++ fmt_tag ++ [16, 0, 0, 0] ++
    [1, 0, 1, 0, 0x80, 0x3E, 0, 0, 0x00, 0x7D, 0, 0, 2, 0, 16, 0] ++ list_chunk

/-- A file whose fmt chunk declares size 14; its payload would otherwise describe 8-bit
samples. -/
def small_fmt_wav : List Byte :=
  RIFF ++ [40, 0, 0, 0] ++ WAVE ++ fmt_tag ++ [14, 0, 0, 0] ++
    [1, 0, 1, 0, 0x80, 0x3E, 0, 0, 0x80, 0x3E, 0, 0, 1, 0, 8, 0] ++
    data_tag ++ [4, 0, 0, 0] ++ [0x00, 0x40, 0x00, 0xC0]

/-- The minimal file with a fmt chunk of declared size 18: the 16 descriptor bytes and
the 2 extension bytes `0xAA 0xBB`. -/
def extended_fmt_wav : List Byte :=
  RIFF ++ [40, 0, 0, 0] ++ WAVE ++ fmt_tag ++ [18, 0, 0, 0] ++
    [1, 0, 1, 0, 0x80, 0x3E, 0, 0, 0x00, 0x7D, 0, 0, 2, 0, 16, 0] ++ [0xAA, 0xBB] ++
    data_tag ++ [4, 0, 0, 0] ++ [0x00, 0x40, 0x00, 0xC0]

/-- The minimal file with the sample rate field `00 00 00 80`, the unsigned value
2147483648. -/
def high_rate_wav : List Byte :=
  RIFF ++ [40, 0, 0, 0] ++ WAVE ++ fmt_tag ++ [16, 0, 0, 0] ++ [1, 0] ++ [1, 0] ++
    [0, 0, 0, 0x80] ++ [0x00, 0x7D, 0, 0] ++ [2, 0] ++ [16, 0] ++
    data_tag ++ [4, 0, 0, 0] ++ [0x00, 0x40, 0x00, 0xC0]

/-- The minimal file declared as stereo: RIFF size 0, 2 channels, byte rate 64000,
block align 4; every other byte is that of `minimal_wav`. -/
def stereo_wav : List Byte :=
  RIFF ++ [0, 0, 0, 0] ++ WAVE ++ fmt_tag ++ [16, 0, 0, 0] ++ [1, 0] ++ [2, 0] ++
    [0x80, 0x3E, 0, 0] ++ [0x00, 0xFA, 0, 0] ++ [4, 0] ++ [16, 0] ++
    data_tag ++ [4, 0, 0, 0] ++ [0x00, 0x40, 0x00, 0xC0]

/-- What `load_wav` does with the file handle and how it ends: `fopen` gave a handle,
`fclose` was called on it, the process was ended by `std::exit(1)`, the function
returned, the process was terminated because of the `std::bad_alloc` that `resize`
(line 115) threw and nothing caught. -/
inductive FileEvent where
  | fopen
  | fclose
  | exit
  | ret
  | abort
  deriving DecidableEq, Repr

/-- The source's `load_wav` with the calls on the file handle written out: every branch
is a way through lines 18-127 and lists, in the order of the source, the `fopen` that
succeeded, the `fclose` calls on that way and the `std::exit`, the `return` or the
uncaught exception that ends it, next to the result of `load_wav_alloc`.  The exception
leaves `load_wav` at line 115, before the `fclose` of line 124 is reached. -/
def load_wav_trace (alloc : Nat → Bool) (opened : Option (List Byte)) :
    List FileEvent × Except WavError WavData :=
  match opened with
  | none => ([.exit], .error .IoError)
  | some file =>
    let log := [FileEvent.fopen]
    let riff_header := file.take 4
    let file := file.drop 4
    if riff_header.length ≠ 4 ∨ strncmp riff_header RIFF_lit 4 ≠ 0 then
      (log ++ [.fclose, .exit], .error .MalformedContainer)
    else
      let file := file.drop 4
      let wave_header := file.take 4
      let file := file.drop 4
      if wave_header.length ≠ 4 ∨ strncmp wave_header WAVE_lit 4 ≠ 0 then
        (log ++ [.fclose, .exit], .error .MalformedContainer)
      else
        match find_chunk fmt_lit file with
        | none => (log ++ [.fclose, .exit], .error .MissingFormatChunk)
        | some (chunk_size, file) =>
          if chunk_size < 16 then (log ++ [.fclose, .exit], .error .FormatChunkTooSmall)
          else
            let audio_format := le_value (file.take 2)
            let file := file.drop 2
            let _num_channels := le_value (file.take 2)
            let file := file.drop 2
            let sample_rate := le_value (file.take 4)
            let file := file.drop 4
            let _byte_rate := le_value (file.take 4)
            let file := file.drop 4
            let _block_align := le_value (file.take 2)
            let file := file.drop 2
            let bits_per_sample := le_value (file.take 2)
            let file := file.drop 2
            let file := if chunk_size > 16 then file.drop (chunk_size - 16) else file
            if audio_format ≠ 1 ∨ bits_per_sample ≠ 16 then
              (log ++ [.fclose, .exit], .error .UnsupportedFormat)
            else
              match find_chunk data_lit file with
              | none => (log ++ [.fclose, .exit], .error .MissingDataChunk)
              | some (chunk_size, file) =>
                let num_samples := chunk_size / (bits_per_sample / 8)
                if num_samples = 0 then (log ++ [.fclose, .exit], .error .EmptyAudio)
                else if alloc num_samples then
                  (log ++ [.fclose, .ret],
                    .ok { samples := read_samples num_samples file,
                          sample_rate := to_int32 sample_rate })
                else (log ++ [.abort], .error .BadAlloc)

/-- A file whose data chunk declares 4 bytes while one byte follows the data chunk
header. -/
def one_byte_data_wav : List Byte :=
  RIFF ++ [40, 0, 0, 0] ++ WAVE ++ fmt_tag ++ [16, 0, 0, 0] ++ [1, 0] ++ [1, 0] ++
    [0x80, 0x3E, 0, 0] ++ [0x00, 0x7D, 0, 0] ++ [2, 0] ++ [16, 0] ++
    data_tag ++ [4, 0, 0, 0] ++ [0x00]

/-- A RIFF-conformant file: a `LIST` chunk of declared size 1, its payload byte `0xAA`,
the pad byte `0x00` that brings the next chunk to an even offset, then the fmt chunk
and the data chunk of the minimal file. -/
def padded_wav : List Byte :=
  RIFF ++ [50, 0, 0, 0] ++ WAVE ++ LIST_tag ++ [1, 0, 0, 0] ++ [0xAA] ++ [0x00] ++
    fmt_tag ++ [16, 0, 0, 0] ++ [1, 0] ++ [1, 0] ++
    [0x80, 0x3E, 0, 0] ++ [0x00, 0x7D, 0, 0] ++ [2, 0] ++ [16, 0] ++
    data_tag ++ [4, 0, 0, 0] ++ [0x00, 0x40, 0x00, 0xC0]

/-- The file `padded_wav` without its pad byte. -/
def unpadded_wav : List Byte :=
  RIFF ++ [50, 0, 0, 0] ++ WAVE ++ LIST_tag ++ [1, 0, 0, 0] ++ [0xAA] ++
    fmt_tag ++ [16, 0, 0, 0] ++ [1, 0] ++ [1, 0] ++
    [0x80, 0x3E, 0, 0] ++ [0x00, 0x7D, 0, 0] ++ [2, 0] ++ [16, 0] ++
    data_tag ++ [4, 0, 0, 0] ++ [0x00, 0x40, 0x00, 0xC0]

/-- A file that ends inside the fmt descriptor: the fmt chunk declares size 16 and 14
payload bytes follow, the bits per sample are missing. -/
def truncated_fmt_wav : List Byte :=
  RIFF ++ [40, 0, 0, 0] ++ WAVE ++ fmt_tag ++ [16, 0, 0, 0] ++
    [1, 0, 1, 0, 0x80, 0x3E, 0, 0, 0x00, 0x7D, 0, 0, 2, 0]

/-- A file of 48 bytes whose data chunk declares 4294967295 bytes while 4 bytes follow
the data chunk header: the vector of line 115 is resized to 2147483647 samples. -/
def huge_data_wav : List Byte :=
  RIFF ++ [40, 0, 0, 0] ++ WAVE ++ fmt_tag ++ [16, 0, 0, 0] ++ [1, 0] ++ [1, 0] ++
    [0x80, 0x3E, 0, 0] ++ [0x00, 0x7D, 0, 0] ++ [2, 0] ++ [16, 0] ++
    data_tag ++ [0xFF, 0xFF, 0xFF, 0xFF] ++ [0x00, 0x40, 0x00, 0xC0]

/-- The offset in the file of the payload of the fmt chunk: the first byte behind the
header at which the scan from offset 12 stops, if it stops at one. -/
def fmt_payload_offset (f : List Byte) : Option Nat :=
  match find_chunk fmt_lit (f.drop 12) with
  | none => none
  | some (_, s) => some (f.length - s.length)

/-- The offsets of the bytes that are read and discarded: bytes 4..7 (the RIFF size)
and, with the payload of the fmt chunk at offset `p`, bytes `p+2..p+3` (channel count)
and `p+8..p+13` (byte rate and block alignment). -/
def discarded_offset (f : List Byte) (i : Nat) : Bool :=
  (decide (4 ≤ i) && decide (i < 8)) ||
    match fmt_payload_offset f with
    | none => false
    | some p => (decide (p + 2 ≤ i) && decide (i < p + 4)) ||
        (decide (p + 8 ≤ i) && decide (i < p + 14))

/-- The file `no_fmt_wav` with another RIFF size in bytes 4..7. -/
def no_fmt_resized_wav : List Byte :=
  RIFF ++ [17, 0, 0, 0] ++ WAVE ++ list_chunk ++ [0x66, 0x6D, 0x74]

/-- The file `truncated_fmt_wav`, which ends inside the fmt descriptor, declared as
stereo with another byte rate and block alignment. -/
def truncated_fmt_stereo_wav : List Byte :=
  RIFF ++ [40, 0, 0, 0] ++ WAVE ++ fmt_tag ++ [16, 0, 0, 0] ++
    [1, 0, 2, 0, 0x80, 0x3E, 0, 0, 0x00, 0xFA, 0, 0, 4, 0]

/-! ## Auxiliary facts about the primitives -/

theorem byte_toNat_ne {a b : Byte} (h : a ≠ b) : (a.toNat : Int) ≠ (b.toNat : Int) := by
  intro hab
  exact h (UInt8.ext (by exact_mod_cast hab))

/-- On a buffer of exactly `n` bytes and a literal whose first `n` characters are not
NUL, `strncmp(.., .., n) == 0` is the exact `n`-byte match. -/
theorem strncmp_eq_zero_iff : ∀ (n : Nat) (id lit : List Byte), id.length = n →
    n ≤ lit.length → (∀ b ∈ lit.take n, b ≠ 0) →
    (strncmp id lit n = 0 ↔ id = lit.take n) := by
  intro n
  induction n with
  | zero =>
    intro id lit hid _ _
    have : id = [] := List.length_eq_zero.mp hid
    subst this
    simp [strncmp]
  | succ n ih =>
    intro id lit hid hlit hnz
    match id, lit, hid, hlit, hnz with
    | a :: as, b :: bs, hid, hlit, hnz =>
      have hb : b ≠ 0 := hnz b (by simp)
      have hbs : ∀ c ∈ bs.take n, c ≠ 0 := fun c hc => hnz c (by simp [hc])
      have hlen : as.length = n := by simpa using hid
      have hlen2 : n ≤ bs.length := by simpa using hlit
      by_cases hab : a = b
      · subst hab
        simp only [strncmp, ne_eq, not_true_eq_false, if_false, hb, List.take_succ_cons,
          List.cons.injEq, true_and]
        exact ih as bs hlen hlen2 hbs
      · have := byte_toNat_ne hab
        simp only [strncmp, ne_eq, hab, not_false_eq_true, if_true, List.take_succ_cons,
          List.cons.injEq, false_and, iff_false]
        omega

theorem strncmp_RIFF (id : List Byte) (h : id.length = 4) :
    strncmp id RIFF_lit 4 = 0 ↔ id = RIFF :=
  strncmp_eq_zero_iff 4 id RIFF_lit h (by decide) (by decide)

theorem strncmp_WAVE (id : List Byte) (h : id.length = 4) :
    strncmp id WAVE_lit 4 = 0 ↔ id = WAVE :=
  strncmp_eq_zero_iff 4 id WAVE_lit h (by decide) (by decide)

theorem strncmp_fmt (id : List Byte) (h : id.length = 4) :
    strncmp id fmt_lit 4 = 0 ↔ id = fmt_tag :=
  strncmp_eq_zero_iff 4 id fmt_lit h (by decide) (by decide)

theorem strncmp_data (id : List Byte) (h : id.length = 4) :
    strncmp id data_lit 4 = 0 ↔ id = data_tag :=
  strncmp_eq_zero_iff 4 id data_lit h (by decide) (by decide)

theorem le_value_lt : ∀ bs : List Byte, le_value bs < 256 ^ bs.length
  | [] => by simp [le_value]
  | b :: bs => by
    have h1 := le_value_lt bs
    have h2 := UInt8.toNat_lt b
    simp only [le_value, List.length_cons, pow_succ]
    omega

/-! ## The chunk scan -/

theorem find_chunk_loop_short (tag : List Byte) (n : Nat) (s : List Byte) (h : s.length < 8) :
    find_chunk_loop tag n s = none := by
  cases n with
  | zero => rfl
  | succ n =>
    simp only [find_chunk_loop, List.length_take, List.length_drop]
    by_cases h4 : min 4 s.length = 4
    · have : ¬ min 4 (s.length - 4) = 4 := by omega
      simp [h4, this]
    · simp [h4]

theorem find_chunk_loop_header (tag : List Byte) (n : Nat) (id szb rest : List Byte)
    (hid : id.length = 4) (hsz : szb.length = 4) :
    find_chunk_loop tag (n + 1) (id ++ szb ++ rest) =
      if strncmp id tag 4 = 0 then some (le_value szb, rest)
      else find_chunk_loop tag n (rest.drop (le_value szb)) := by
  have e1 : (id ++ szb ++ rest).take 4 = id := by
    rw [List.append_assoc, List.take_left' hid]
  have e2 : (id ++ szb ++ rest).drop 4 = szb ++ rest := by
    rw [List.append_assoc, List.drop_left' hid]
  have e3 : (szb ++ rest).take 4 = szb := List.take_left' hsz
  have e4 : (szb ++ rest).drop 4 = rest := List.drop_left' hsz
  simp only [find_chunk_loop, e1, e2, e3, e4, hid, hsz, ne_eq, not_true_eq_false, if_false]

theorem split_header (s : List Byte) (h : 8 ≤ s.length) :
    ∃ id szb rest, id.length = 4 ∧ szb.length = 4 ∧ s = id ++ szb ++ rest := by
  refine ⟨s.take 4, (s.drop 4).take 4, (s.drop 4).drop 4, ?_, ?_, ?_⟩
  · simp; omega
  · simp; omega
  · rw [List.append_assoc, List.take_append_drop, List.take_append_drop]

/-- Fuel beyond the length of the stream changes nothing: the loop has ended before
it is used. -/
theorem find_chunk_loop_fuel (tag : List Byte) : ∀ (n m : Nat) (s : List Byte),
    s.length ≤ n → s.length ≤ m → find_chunk_loop tag n s = find_chunk_loop tag m s := by
  intro n
  induction n with
  | zero =>
    intro m s hn _
    rw [find_chunk_loop_short tag 0 s (by omega), find_chunk_loop_short tag m s (by omega)]
  | succ n ih =>
    intro m s hn hm
    by_cases h8 : s.length < 8
    · rw [find_chunk_loop_short tag _ s h8, find_chunk_loop_short tag m s h8]
    · obtain ⟨id, szb, rest, hid, hsz, rfl⟩ := split_header s (by omega)
      cases m with
      | zero => omega
      | succ m =>
        rw [find_chunk_loop_header tag n id szb rest hid hsz,
          find_chunk_loop_header tag m id szb rest hid hsz]
        simp only [List.length_append] at hn hm
        have hd : (rest.drop (le_value szb)).length ≤ rest.length := by simp
        rw [ih m (rest.drop (le_value szb)) (by omega) (by omega)]

/-- A stream with fewer than 8 bytes ends the scan: the tag or the size cannot be
read. -/
theorem find_chunk_short (tag : List Byte) (s : List Byte) (h : s.length < 8) :
    find_chunk tag s = none :=
  find_chunk_loop_short tag _ s h

/-- The loop equation of the scan: after a complete header the scan stops on a
matching tag and otherwise goes on `chunk_size` bytes further. -/
theorem find_chunk_eq (tag : List Byte) (id szb rest : List Byte)
    (hid : id.length = 4) (hsz : szb.length = 4) :
    find_chunk tag (id ++ szb ++ rest) =
      if strncmp id tag 4 = 0 then some (le_value szb, rest)
      else find_chunk tag (rest.drop (le_value szb)) := by
  have hl : (id ++ szb ++ rest).length = rest.length + 7 + 1 := by
    simp only [List.length_append, hid, hsz]; omega
  unfold find_chunk
  rw [hl, find_chunk_loop_header tag _ id szb rest hid hsz]
  have hd : (rest.drop (le_value szb)).length ≤ rest.length := by simp
  rw [find_chunk_loop_fuel tag (rest.length + 7) (rest.drop (le_value szb)).length _
    (by omega) (le_refl _)]

/-- What the scan returns is a part of the stream that lies at least 8 bytes in. -/
theorem find_chunk_length (tag : List Byte) : ∀ (k : Nat) (s : List Byte), s.length ≤ k →
    ∀ n r, find_chunk tag s = some (n, r) → r.length + 8 ≤ s.length := by
  intro k
  induction k with
  | zero =>
    intro s hk n r h
    rw [find_chunk_short tag s (by omega)] at h
    exact absurd h (by simp)
  | succ k ih =>
    intro s hk n r h
    by_cases h8 : s.length < 8
    · rw [find_chunk_short tag s h8] at h
      exact absurd h (by simp)
    · obtain ⟨id, szb, rest, hid, hsz, rfl⟩ := split_header s (by omega)
      rw [find_chunk_eq tag id szb rest hid hsz] at h
      simp only [List.length_append, hid, hsz] at hk ⊢
      split at h
      · simp only [Option.some.injEq, Prod.mk.injEq] at h
        rw [← h.2]; omega
      · have hd : (rest.drop (le_value szb)).length ≤ rest.length := by simp
        have := ih (rest.drop (le_value szb)) (by omega) n r h
        omega

/-! ## The envelope -/

theorem magic_test (lit tag : List Byte) (htag : tag.length = 4)
    (hlit : ∀ id : List Byte, id.length = 4 → (strncmp id lit 4 = 0 ↔ id = tag))
    (x : List Byte) : (x.length ≠ 4 ∨ strncmp x lit 4 ≠ 0) ↔ x ≠ tag := by
  by_cases hx : x.length = 4
  · simp [hx, hlit x hx]
  · have : x ≠ tag := fun h => hx (h ▸ htag)
    simp [hx, this]

/-- Lines 27-44 in closed form: both magics are compared as exact 4-byte strings, at
offsets 0 and 8, and the stream continues at offset 12. -/
theorem read_riff_header_eq (f : List Byte) :
    read_riff_header f =
      if f.take 4 ≠ RIFF then .error .MalformedContainer
      else if (f.drop 8).take 4 ≠ WAVE then .error .MalformedContainer
      else .ok (f.drop 12) := by
  have h1 := magic_test RIFF_lit RIFF rfl strncmp_RIFF (f.take 4)
  have h2 := magic_test WAVE_lit WAVE rfl strncmp_WAVE ((f.drop 8).take 4)
  have e8 : (f.drop 4).drop 4 = f.drop 8 := by rw [List.drop_drop]
  have e12 : (f.drop 8).drop 4 = f.drop 12 := by rw [List.drop_drop]
  unfold read_riff_header
  simp only [e8, e12, h1, h2]

/-- A stream that begins `RIFF`, any 4 bytes, `WAVE` passes the envelope check, and
the scan starts right after it. -/
theorem read_riff_header_envelope (sz body : List Byte) (hsz : sz.length = 4) :
    read_riff_header (RIFF ++ sz ++ WAVE ++ body) = .ok body := by
  have e1 : (RIFF ++ sz ++ WAVE ++ body).take 4 = RIFF := by
    rw [List.append_assoc, List.append_assoc, List.take_left' (by rfl : RIFF.length = 4)]
  have e2 : (RIFF ++ sz ++ WAVE ++ body).drop 8 = WAVE ++ body := by
    rw [List.append_assoc]
    exact List.drop_left' (by simp [hsz, RIFF])
  have e3 : (RIFF ++ sz ++ WAVE ++ body).drop 12 = body :=
    List.drop_left' (by simp [hsz, RIFF, WAVE])
  have e4 : (WAVE ++ body).take 4 = WAVE := List.take_left' (by rfl : WAVE.length = 4)
  rw [read_riff_header_eq, e1, e2, e3, e4]
  simp

/-- A stream that passes the envelope check has that form. -/
theorem read_riff_header_ok (f s : List Byte) (h : read_riff_header f = .ok s) :
    ∃ sz, sz.length = 4 ∧ f = RIFF ++ sz ++ WAVE ++ s := by
  rw [read_riff_header_eq] at h
  by_cases c1 : f.take 4 = RIFF
  · by_cases c2 : (f.drop 8).take 4 = WAVE
    · simp only [c1, c2, ne_eq, not_true_eq_false, if_false, Except.ok.injEq] at h
      have hl : 12 ≤ f.length := by
        have := congrArg List.length c2
        simp [WAVE] at this
        omega
      refine ⟨(f.drop 4).take 4, by simp; omega, ?_⟩
      have d1 : f = f.take 4 ++ f.drop 4 := (List.take_append_drop 4 f).symm
      have d2 : f.drop 4 = (f.drop 4).take 4 ++ (f.drop 4).drop 4 :=
        (List.take_append_drop 4 _).symm
      have d3 : (f.drop 4).drop 4 = ((f.drop 4).drop 4).take 4 ++ ((f.drop 4).drop 4).drop 4 :=
        (List.take_append_drop 4 _).symm
      simp only [List.drop_drop] at d2 d3
      norm_num at d2 d3
      rw [c2, h] at d3
      rw [d3] at d2
      rw [c1] at d1
      rw [d2] at d1
      simpa [List.append_assoc] using d1
    · simp [c1, c2] at h
  · simp [c1] at h

/-! ## The sample loop -/

theorem le_value_pair (b0 b1 : Byte) : le_value [b0, b1] = b0.toNat + 256 * b1.toNat := by
  simp [le_value]

theorem read_samples_eq : ∀ (n : Nat) (s : List Byte),
    read_samples n s = ((pcm_words s).take n).map pcm_to_float
  | 0, s => by simp [read_samples]
  | n + 1, [] => by simp [read_samples, pcm_words]
  | n + 1, [_] => by simp [read_samples, pcm_words]
  | n + 1, b0 :: b1 :: s => by
    simp [read_samples, pcm_words, read_samples_eq n s, le_value_pair]

theorem pcm_words_length : ∀ s : List Byte, (pcm_words s).length = s.length / 2
  | [] => by simp [pcm_words]
  | [_] => by simp [pcm_words]
  | b0 :: b1 :: s => by
    simp only [pcm_words, List.length_cons, pcm_words_length s]
    omega

theorem read_samples_length (n : Nat) (s : List Byte) :
    (read_samples n s).length = min n (s.length / 2) := by
  simp [read_samples_eq, pcm_words_length]

theorem pcm_words_getElem? : ∀ (s : List Byte) (i : Nat) (b0 b1 : Byte),
    s[2 * i]? = some b0 → s[2 * i + 1]? = some b1 →
    (pcm_words s)[i]? = some (to_int16 (b0.toNat + 256 * b1.toNat))
  | [], i, b0, b1, h0, _ => by simp at h0
  | [_], i, b0, b1, _, h1 => by simp at h1
  | c0 :: c1 :: s, 0, b0, b1, h0, h1 => by
    simp at h0 h1
    simp [pcm_words, h0, h1]
  | c0 :: c1 :: s, i + 1, b0, b1, h0, h1 => by
    have e0 : 2 * (i + 1) = (2 * i) + 1 + 1 := by omega
    have e1 : 2 * (i + 1) + 1 = (2 * i + 1) + 1 + 1 := by omega
    rw [e0] at h0
    rw [e1] at h1
    simp only [List.getElem?_cons_succ] at h0 h1
    simp only [pcm_words, List.getElem?_cons_succ]
    exact pcm_words_getElem? s i b0 b1 h0 h1

theorem to_int16_bounds (b0 b1 : Byte) :
    -32768 ≤ to_int16 (b0.toNat + 256 * b1.toNat) ∧
      to_int16 (b0.toNat + 256 * b1.toNat) ≤ 32767 := by
  have h0 := UInt8.toNat_lt b0
  have h1 := UInt8.toNat_lt b1
  unfold to_int16
  split <;> omega

theorem pcm_words_bounds : ∀ (s : List Byte) (v : Int), v ∈ pcm_words s →
    -32768 ≤ v ∧ v ≤ 32767
  | [], v, h => by simp [pcm_words] at h
  | [_], v, h => by simp [pcm_words] at h
  | b0 :: b1 :: s, v, h => by
    simp only [pcm_words, List.mem_cons] at h
    rcases h with h | h
    · rw [h]; exact to_int16_bounds b0 b1
    · exact pcm_words_bounds s v h

/-- The float arithmetic of line 122 is exact: the quotient is a binary32 number,
an integer significand below 2^24 times a power of two within the exponent range. -/
theorem pcm_to_float_binary32 (v : Int) (h : -32768 ≤ v ∧ v ≤ 32767) :
    ∃ m e : Int, |m| < 2 ^ 24 ∧ -149 ≤ e ∧ e ≤ 104 ∧ pcm_to_float v = (m : ℚ) * 2 ^ e := by
  refine ⟨v, -15, ?_, by norm_num, by norm_num, ?_⟩
  · rw [abs_lt]; omega
  · unfold pcm_to_float
    rw [div_eq_mul_inv]
    norm_num [zpow_neg]

/-! ## The stages of `load_wav` on a stream with a valid envelope -/

theorem find_chunk_fmt_found (szb rest : List Byte) (hsz : szb.length = 4) :
    find_chunk fmt_lit (fmt_tag ++ szb ++ rest) = some (le_value szb, rest) := by
  rw [find_chunk_eq fmt_lit fmt_tag szb rest rfl hsz, if_pos ((strncmp_fmt fmt_tag rfl).mpr rfl)]

theorem find_chunk_data_found (szb rest : List Byte) (hsz : szb.length = 4) :
    find_chunk data_lit (data_tag ++ szb ++ rest) = some (le_value szb, rest) := by
  rw [find_chunk_eq data_lit data_tag szb rest rfl hsz,
    if_pos ((strncmp_data data_tag rfl).mpr rfl)]

theorem find_chunk_fmt_skip (id szb rest : List Byte) (hid : id.length = 4)
    (hsz : szb.length = 4) (hne : id ≠ fmt_tag) :
    find_chunk fmt_lit (id ++ szb ++ rest) = find_chunk fmt_lit (rest.drop (le_value szb)) := by
  rw [find_chunk_eq fmt_lit id szb rest hid hsz,
    if_neg (fun h => hne ((strncmp_fmt id hid).mp h))]

theorem find_chunk_data_skip (id szb rest : List Byte) (hid : id.length = 4)
    (hsz : szb.length = 4) (hne : id ≠ data_tag) :
    find_chunk data_lit (id ++ szb ++ rest) = find_chunk data_lit (rest.drop (le_value szb)) := by
  rw [find_chunk_eq data_lit id szb rest hid hsz,
    if_neg (fun h => hne ((strncmp_data id hid).mp h))]

theorem seek_data_envelope (sz body : List Byte) (hsz : sz.length = 4) :
    seek_data (RIFF ++ sz ++ WAVE ++ body) = locate_data body := by
  simp only [seek_data, read_riff_header_envelope sz body hsz]

/-- The 16 descriptor bytes of a fmt chunk in closed form: the audio format is bytes
0-1, the sample rate bytes 4-7, the bits per sample bytes 14-15; the stream goes on
after the declared size. -/
theorem read_fmt_descriptor (chunk_size : Nat) (desc rest : List Byte)
    (hsize : 16 ≤ chunk_size) (hdesc : desc.length = 16) :
    read_fmt chunk_size (desc ++ rest) =
      if le_value (desc.take 2) ≠ 1 ∨ le_value (desc.drop 14) ≠ 16 then
        .error .UnsupportedFormat
      else .ok (le_value ((desc.drop 4).take 4), le_value (desc.drop 14),
        rest.drop (chunk_size - 16)) := by
  match desc, hdesc with
  | [d0, d1, d2, d3, d4, d5, d6, d7, d8, d9, d10, d11, d12, d13, d14, d15], _ =>
    have hlt : ¬ chunk_size < 16 := by omega
    by_cases h16 : chunk_size > 16
    · simp [read_fmt, hlt, h16]
    · have : chunk_size - 16 = 0 := by omega
      simp [read_fmt, hlt, h16, this]

/-- The walk over a file that consists of the envelope, a 16-byte fmt chunk for 16-bit
PCM and a data chunk header: the data chunk is reached with its declared size and
whatever follows its header. -/
theorem seek_data_canonical (sz ch rate br ba dsz s : List Byte)
    (hsz : sz.length = 4) (hch : ch.length = 2) (hrate : rate.length = 4)
    (hbr : br.length = 4) (hba : ba.length = 2) (hdsz : dsz.length = 4) :
    seek_data (RIFF ++ sz ++ WAVE ++ fmt_tag ++ [16, 0, 0, 0] ++ [1, 0] ++ ch ++
        rate ++ br ++ ba ++ [16, 0] ++ data_tag ++ dsz ++ s) =
      .ok (le_value rate, 16, le_value dsz, s) := by
  have hshape : RIFF ++ sz ++ WAVE ++ fmt_tag ++ [16, 0, 0, 0] ++ [1, 0] ++ ch ++
        rate ++ br ++ ba ++ [16, 0] ++ data_tag ++ dsz ++ s =
      RIFF ++ sz ++ WAVE ++ (fmt_tag ++ [16, 0, 0, 0] ++
        (([1, 0] ++ ch ++ rate ++ br ++ ba ++ [16, 0]) ++ (data_tag ++ dsz ++ s))) := by
    simp only [List.append_assoc]
  have hdesc : ([1, 0] ++ ch ++ rate ++ br ++ ba ++ [16, 0] : List Byte).length = 16 := by
    simp [hch, hrate, hbr, hba]
  have hfields :
      le_value (([1, 0] ++ ch ++ rate ++ br ++ ba ++ [16, 0] : List Byte).take 2) = 1 ∧
      le_value (([1, 0] ++ ch ++ rate ++ br ++ ba ++ [16, 0] : List Byte).drop 14) = 16 ∧
      le_value ((([1, 0] ++ ch ++ rate ++ br ++ ba ++ [16, 0] : List Byte).drop 4).take 4) =
        le_value rate := by
    match ch, rate, br, ba, hch, hrate, hbr, hba with
    | [_, _], [_, _, _, _], [_, _, _, _], [_, _], _, _, _, _ =>
      refine ⟨?_, ?_, ?_⟩ <;> simp [le_value]
  obtain ⟨hf1, hf2, hf3⟩ := hfields
  rw [hshape, seek_data_envelope sz _ hsz]
  unfold locate_data
  rw [find_chunk_fmt_found [16, 0, 0, 0] _ rfl]
  have h16 : le_value ([16, 0, 0, 0] : List Byte) = 16 := by decide
  simp only [h16]
  rw [read_fmt_descriptor 16 _ _ (le_refl 16) hdesc]
  simp only [hf1, hf2, hf3, ne_eq, not_true_eq_false, or_self, if_false, Nat.sub_self,
    List.drop_zero]
  rw [find_chunk_data_found _ _ hdsz]

theorem read_fmt_ok_bits (chunk_size : Nat) (file : List Byte) (rate bits : Nat)
    (rest : List Byte) (h : read_fmt chunk_size file = .ok (rate, bits, rest)) : bits = 16 := by
  unfold read_fmt at h
  split at h
  · exact absurd h (by simp)
  · simp only at h
    split at h
    · exact absurd h (by simp)
    · rename_i hc
      simp only [Except.ok.injEq, Prod.mk.injEq] at h
      rw [← h.2.1]
      by_contra hb
      exact hc (Or.inr hb)

theorem locate_data_bits (f : List Byte) (rate bits d : Nat) (s : List Byte)
    (h : locate_data f = .ok (rate, bits, d, s)) : bits = 16 := by
  unfold locate_data at h
  split at h
  · exact absurd h (by simp)
  · split at h
    · exact absurd h (by simp)
    · rename_i hfmt
      split at h
      · exact absurd h (by simp)
      · simp only [Except.ok.injEq, Prod.mk.injEq] at h
        rw [← h.2.1]
        exact read_fmt_ok_bits _ _ _ _ _ hfmt

/-- When the data chunk is reached, the fmt chunk said 16 bits per sample. -/
theorem seek_data_bits (f : List Byte) (rate bits d : Nat) (s : List Byte)
    (h : seek_data f = .ok (rate, bits, d, s)) : bits = 16 := by
  unfold seek_data at h
  split at h
  · exact absurd h (by simp)
  · exact locate_data_bits _ _ _ _ _ h

/-- After the data chunk header: the check of the declared size, the allocation for
`chunk_size / 2` samples, the sample loop. -/
theorem load_wav_alloc_of_seek_data (alloc : Nat → Bool) (f : List Byte) (rate bits d : Nat)
    (s : List Byte) (h : seek_data f = .ok (rate, bits, d, s)) :
    load_wav_alloc alloc (some f) =
      if d / 2 = 0 then .error .EmptyAudio
      else if alloc (d / 2) then
        .ok { samples := read_samples (d / 2) s, sample_rate := to_int32 rate }
      else .error .BadAlloc := by
  have hb := seek_data_bits f rate bits d s h
  subst hb
  simp only [load_wav_alloc, h, read_pcm]

/-- After the data chunk header `load_wav` is the sample loop over `chunk_size / 2`
samples. -/
theorem load_wav_of_seek_data (f : List Byte) (rate bits d : Nat) (s : List Byte)
    (h : seek_data f = .ok (rate, bits, d, s)) :
    load_wav (some f) =
      if d / 2 = 0 then .error .EmptyAudio
      else .ok { samples := read_samples (d / 2) s, sample_rate := to_int32 rate } := by
  simp only [load_wav, load_wav_alloc_of_seek_data _ f rate bits d s h, if_true]

/-- The minimal file of the concrete scenario, evaluated. -/
theorem minimal_wav_decodes :
    load_wav (some minimal_wav) = .ok { samples := [1 / 2, -1 / 2], sample_rate := 16000 } := by
  have hs : seek_data minimal_wav = .ok (16000, 16, 4, [0x00, 0x40, 0x00, 0xC0]) :=
    seek_data_canonical [40, 0, 0, 0] [1, 0] [0x80, 0x3E, 0, 0] [0x00, 0x7D, 0, 0] [2, 0]
      [4, 0, 0, 0] [0x00, 0x40, 0x00, 0xC0] rfl rfl rfl rfl rfl rfl
  rw [load_wav_of_seek_data _ _ _ _ _ hs]
  have e2 : (4 : Nat) / 2 = 2 := rfl
  have v0 : to_int16 (le_value [0x00, 0x40]) = 16384 := by decide
  have v1 : to_int16 (le_value [0x00, 0xC0]) = -16384 := by decide
  have r0 : to_int32 16000 = 16000 := by decide
  simp only [e2, read_samples, v0, v1, r0, pcm_to_float]
  norm_num

/-! ## Independence of the scan from what lies behind the chunk it stops at -/

/-- The scan reads nothing behind the header it stops at: when it consumes exactly
the prefix `a` of `a ++ x`, it consumes exactly `a` of every `a ++ y`. -/
theorem find_chunk_consumed (lit : List Byte) : ∀ (k : Nat) (a : List Byte), a.length ≤ k →
    ∀ (x : List Byte) (n : Nat), find_chunk lit (a ++ x) = some (n, x) →
    ∀ y : List Byte, find_chunk lit (a ++ y) = some (n, y) := by
  intro k
  induction k with
  | zero =>
    intro a ha x n h y
    have := find_chunk_length lit _ (a ++ x) (le_refl _) n x h
    simp only [List.length_append] at this
    omega
  | succ k ih =>
    intro a ha x n h y
    have hlen := find_chunk_length lit _ (a ++ x) (le_refl _) n x h
    simp only [List.length_append] at hlen
    obtain ⟨id, szb, a', hid, hsz, rfl⟩ := split_header a (by omega)
    have ex : id ++ szb ++ a' ++ x = id ++ szb ++ (a' ++ x) := by simp
    have ey : id ++ szb ++ a' ++ y = id ++ szb ++ (a' ++ y) := by simp
    rw [ex, find_chunk_eq lit id szb _ hid hsz] at h
    rw [ey, find_chunk_eq lit id szb _ hid hsz]
    by_cases hc : strncmp id lit 4 = 0
    · rw [if_pos hc] at h
      rw [if_pos hc]
      simp only [Option.some.injEq, Prod.mk.injEq] at h
      have ha' : a' = [] := by
        have := congrArg List.length h.2
        simp only [List.length_append] at this
        exact List.length_eq_zero.mp (by omega)
      subst ha'
      simp only [List.nil_append] at h ⊢
      rw [h.1]
    · rw [if_neg hc] at h
      rw [if_neg hc]
      have hl2 := find_chunk_length lit _ _ (le_refl _) n x h
      simp only [List.length_drop, List.length_append] at hl2
      have hle : le_value szb ≤ a'.length := by omega
      rw [List.drop_append_of_le_length hle] at h
      rw [List.drop_append_of_le_length hle]
      simp only [List.length_append, hid, hsz] at ha
      exact ih (a'.drop (le_value szb)) (by simp; omega) x n h y

theorem read_riff_header_append (hdr body : List Byte) (h : hdr.length = 12) :
    read_riff_header (hdr ++ body) =
      if hdr.take 4 ≠ RIFF then .error .MalformedContainer
      else if (hdr.drop 8).take 4 ≠ WAVE then .error .MalformedContainer
      else .ok body := by
  have e1 : (hdr ++ body).take 4 = hdr.take 4 := by
    rw [List.take_append_of_le_length (by omega)]
  have e2 : ((hdr ++ body).drop 8).take 4 = (hdr.drop 8).take 4 := by
    rw [List.drop_append_of_le_length (by omega),
      List.take_append_of_le_length (by simp; omega)]
  have e3 : (hdr ++ body).drop 12 = body := List.drop_left' h
  rw [read_riff_header_eq, e1, e2, e3]

/-- Behind the same 12 bytes, two streams on which lines 46-106 end alike give the
same `load_wav`. -/
theorem load_wav_congr_body (hdr b1 b2 : List Byte) (h : hdr.length = 12)
    (hb : locate_data b1 = locate_data b2) :
    load_wav (some (hdr ++ b1)) = load_wav (some (hdr ++ b2)) := by
  simp only [load_wav, load_wav_alloc, seek_data, read_riff_header_append hdr _ h]
  by_cases c1 : hdr.take 4 = RIFF
  · by_cases c2 : (hdr.drop 8).take 4 = WAVE
    · simp only [c1, c2, ne_eq, not_true_eq_false, if_false, hb]
    · simp only [c1, c2, ne_eq, not_true_eq_false, not_false_eq_true, if_false, if_true]
  · simp only [c1, ne_eq, not_false_eq_true, if_true]

/-- A fmt chunk whose payload is complete is read the same way whatever follows it,
and the stream is left right behind the payload. -/
theorem read_fmt_complete (fmt_size : Nat) (fp : List Byte) (hfp : fp.length = fmt_size)
    (x y : List Byte) :
    (∃ e, read_fmt fmt_size (fp ++ x) = .error e ∧ read_fmt fmt_size (fp ++ y) = .error e) ∨
    (∃ r b, read_fmt fmt_size (fp ++ x) = .ok (r, b, x) ∧
      read_fmt fmt_size (fp ++ y) = .ok (r, b, y)) := by
  by_cases hs : fmt_size < 16
  · left
    exact ⟨.FormatChunkTooSmall, by simp [read_fmt, hs], by simp [read_fmt, hs]⟩
  · have hd : (fp.take 16).length = 16 := by simp; omega
    have hext : (fp.drop 16).length = fmt_size - 16 := by simp; omega
    have ex : fp ++ x = fp.take 16 ++ (fp.drop 16 ++ x) := by
      rw [← List.append_assoc, List.take_append_drop]
    have ey : fp ++ y = fp.take 16 ++ (fp.drop 16 ++ y) := by
      rw [← List.append_assoc, List.take_append_drop]
    rw [ex, ey, read_fmt_descriptor fmt_size _ _ (by omega) hd,
      read_fmt_descriptor fmt_size _ _ (by omega) hd,
      List.drop_left' hext, List.drop_left' hext]
    by_cases hbad : le_value ((fp.take 16).take 2) ≠ 1 ∨ le_value ((fp.take 16).drop 14) ≠ 16
    · left
      exact ⟨.UnsupportedFormat, by rw [if_pos hbad], by rw [if_pos hbad]⟩
    · right
      exact ⟨_, _, by rw [if_neg hbad], by rw [if_neg hbad]⟩

/-! ## The scan and the walk of the specification -/

theorem find_chunk_none_of_exhausts (lit tag : List Byte)
    (hlit : ∀ id : List Byte, id.length = 4 → (strncmp id lit 4 = 0 ↔ id = tag))
    (s : List Byte) (h : WalkExhausts tag s) : find_chunk lit s = none := by
  induction h with
  | short s hs => exact find_chunk_short lit s hs
  | skip id szb rest hid hsz hne _ ih =>
    rw [find_chunk_eq lit id szb rest hid hsz, if_neg (fun hc => hne ((hlit id hid).mp hc))]
    exact ih

theorem exhausts_of_find_chunk_none (lit tag : List Byte)
    (hlit : ∀ id : List Byte, id.length = 4 → (strncmp id lit 4 = 0 ↔ id = tag)) :
    ∀ (k : Nat) (s : List Byte), s.length ≤ k → find_chunk lit s = none →
      WalkExhausts tag s := by
  intro k
  induction k with
  | zero => intro s hk _; exact .short s (by omega)
  | succ k ih =>
    intro s hk h
    by_cases h8 : s.length < 8
    · exact .short s h8
    · obtain ⟨id, szb, rest, hid, hsz, rfl⟩ := split_header s (by omega)
      rw [find_chunk_eq lit id szb rest hid hsz] at h
      by_cases hc : strncmp id lit 4 = 0
      · rw [if_pos hc] at h
        exact absurd h (by simp)
      · rw [if_neg hc] at h
        simp only [List.length_append, hid, hsz] at hk
        refine .skip id szb rest hid hsz (fun he => hc ((hlit id hid).mpr he)) ?_
        exact ih _ (by simp; omega) h

/-- The scan for `fmt ` ends without a match exactly when the specification's walk
runs out of stream. -/
theorem find_chunk_fmt_none_iff (s : List Byte) :
    find_chunk fmt_lit s = none ↔ WalkExhausts fmt_tag s :=
  ⟨exhausts_of_find_chunk_none fmt_lit fmt_tag strncmp_fmt _ s (le_refl _),
    find_chunk_none_of_exhausts fmt_lit fmt_tag strncmp_fmt s⟩

/-- The scan for `data` ends without a match exactly when the specification's walk
runs out of stream. -/
theorem find_chunk_data_none_iff (s : List Byte) :
    find_chunk data_lit s = none ↔ WalkExhausts data_tag s :=
  ⟨exhausts_of_find_chunk_none data_lit data_tag strncmp_data _ s (le_refl _),
    find_chunk_none_of_exhausts data_lit data_tag strncmp_data s⟩

/-! ## The failures of each stage -/

theorem read_fmt_error (chunk_size : Nat) (file : List Byte) (e : WavError)
    (h : read_fmt chunk_size file = .error e) :
    e = .FormatChunkTooSmall ∨ e = .UnsupportedFormat := by
  unfold read_fmt at h
  split at h
  · simp only [Except.error.injEq] at h
    exact Or.inl h.symm
  · simp only at h
    split at h
    · simp only [Except.error.injEq] at h
      exact Or.inr h.symm
    · exact absurd h (by simp)

theorem locate_data_error (body : List Byte) (e : WavError)
    (h : locate_data body = .error e) :
    e = .MissingFormatChunk ∨ e = .FormatChunkTooSmall ∨ e = .UnsupportedFormat ∨
      e = .MissingDataChunk := by
  unfold locate_data at h
  split at h
  · simp only [Except.error.injEq] at h
    exact Or.inl h.symm
  · split at h
    · rename_i hfmt
      simp only [Except.error.injEq] at h
      subst h
      rcases read_fmt_error _ _ _ hfmt with h | h
      · exact Or.inr (Or.inl h)
      · exact Or.inr (Or.inr (Or.inl h))
    · split at h
      · simp only [Except.error.injEq] at h
        exact Or.inr (Or.inr (Or.inr h.symm))
      · exact absurd h (by simp)

/-! ## C1: the canonical 16-bit PCM file -/

/-- C1. A stream `RIFF` + any 4 bytes + `WAVE` + a `fmt ` chunk of declared size 16
with audio format 1 and 16 bits per sample + a `data` chunk of declared size `2n`
(`n ≥ 1`) followed by at least `2n` bytes is decoded: `load_wav` returns exactly `n`
samples, sample `i` is `v_i / 32768` for the signed little-endian 16-bit integer `v_i`
of payload bytes `2i` and `2i+1`, and the sample rate is that of the fmt chunk. -/
theorem load_wav_canonical (sz ch rate br ba dsz payload extra : List Byte) (n : Nat)
    (hsz : sz.length = 4) (hch : ch.length = 2) (hrate : rate.length = 4)
    (hbr : br.length = 4) (hba : ba.length = 2) (hdsz : dsz.length = 4)
    (hn : 1 ≤ n) (hd : le_value dsz = 2 * n) (hp : payload.length = 2 * n) :
    ∃ w, load_wav (some (RIFF ++ sz ++ WAVE ++ fmt_tag ++ [16, 0, 0, 0] ++ [1, 0] ++ ch ++
        rate ++ br ++ ba ++ [16, 0] ++ data_tag ++ dsz ++ payload ++ extra)) = .ok w ∧
      w.sample_rate = to_int32 (le_value rate) ∧ w.samples.length = n ∧
      ∀ i b0 b1, payload[2 * i]? = some b0 → payload[2 * i + 1]? = some b1 →
        w.samples[i]? = some ((to_int16 (b0.toNat + 256 * b1.toNat) : ℚ) / 32768) := by
  have hseek := seek_data_canonical sz ch rate br ba dsz (payload ++ extra)
    hsz hch hrate hbr hba hdsz
  rw [hd, ← List.append_assoc] at hseek
  refine ⟨⟨read_samples n (payload ++ extra), to_int32 (le_value rate)⟩, ?_, rfl, ?_, ?_⟩
  · have hnum : 2 * n / (16 / 8) = n := by omega
    have hn0 : n ≠ 0 := by omega
    simp only [load_wav, load_wav_alloc, hseek, read_pcm, hnum, hn0, if_false, if_true]
  · simp only [read_samples_length, List.length_append, hp]
    omega
  · intro i b0 b1 h0 h1
    have hi : 2 * i + 1 < payload.length := by
      by_contra hc
      rw [List.getElem?_eq_none (by omega)] at h1
      exact absurd h1 (by simp)
    have h0' : (payload ++ extra)[2 * i]? = some b0 := by
      rw [List.getElem?_append_left (by omega)]; exact h0
    have h1' : (payload ++ extra)[2 * i + 1]? = some b1 := by
      rw [List.getElem?_append_left hi]; exact h1
    have hw := pcm_words_getElem? (payload ++ extra) i b0 b1 h0' h1'
    have hin : i < n := by omega
    simp only [read_samples_eq, List.getElem?_map, List.getElem?_take, hin, if_true, hw,
      Option.map_some', pcm_to_float]

/-- C1, the concrete scenario: the minimal file decodes to sample rate 16000 and the
samples `[0.5, -0.5]`. -/
theorem load_wav_canonical_witness :
    load_wav (some minimal_wav) = .ok { samples := [1 / 2, -1 / 2], sample_rate := 16000 } := by
  obtain ⟨w, hw, hr, hl, hs⟩ := load_wav_canonical [40, 0, 0, 0] [1, 0] [0x80, 0x3E, 0, 0]
    [0x00, 0x7D, 0, 0] [2, 0] [4, 0, 0, 0] [0x00, 0x40, 0x00, 0xC0] [] 2
    rfl rfl rfl rfl rfl rfl (by decide) (by decide) rfl
  have e : load_wav (some minimal_wav) = .ok w := hw
  rw [e]
  obtain ⟨samples, sample_rate⟩ := w
  simp only at hr hl hs
  have hrate : sample_rate = 16000 := by rw [hr]; decide
  have h0 := hs 0 0x00 0x40 rfl rfl
  have h1 := hs 1 0x00 0xC0 rfl rfl
  match samples, hl, h0, h1 with
  | [a, b], _, h0, h1 =>
    simp only [List.getElem?_cons_zero, List.getElem?_cons_succ, Option.some.injEq] at h0 h1
    have ea : a = 1 / 2 := by
      rw [h0]
      have : to_int16 ((0x00 : Byte).toNat + 256 * (0x40 : Byte).toNat) = 16384 := by decide
      rw [this]; norm_num
    have eb : b = -1 / 2 := by
      rw [h1]
      have : to_int16 ((0x00 : Byte).toNat + 256 * (0xC0 : Byte).toNat) = -16384 := by decide
      rw [this]; norm_num
    rw [ea, eb, hrate]

/-! ## C2: truncated data -/

/-- A successful `load_wav` went through the data chunk header and the sample loop. -/
theorem load_wav_ok (f : List Byte) (w : WavData) (h : load_wav (some f) = .ok w) :
    ∃ rate bits d s, seek_data f = .ok (rate, bits, d, s) ∧ d / 2 ≠ 0 ∧
      w = { samples := read_samples (d / 2) s, sample_rate := to_int32 rate } := by
  cases hs : seek_data f with
  | error e =>
    simp [load_wav, load_wav_alloc, hs] at h
  | ok r =>
    obtain ⟨rate, bits, d, s⟩ := r
    rw [load_wav_of_seek_data f rate bits d s hs] at h
    refine ⟨rate, bits, d, s, rfl, ?_⟩
    split at h
    · exact absurd h (by simp)
    · rename_i hd
      simp only [Except.ok.injEq] at h
      exact ⟨hd, h.symm⟩

theorem encode_pcm_pcm_to_float (v : Int) : encode_pcm (pcm_to_float v) = v := by
  unfold encode_pcm pcm_to_float
  rw [div_mul_cancel₀ _ (by norm_num : (32768 : ℚ) ≠ 0)]
  exact round_intCast v

/-- C3. Re-encoding the returned samples as `round(sample * 32768)` gives back the
16-bit PCM words of the data payload they were decoded from, in file order, and does
so for every 16-bit value. -/
theorem load_wav_roundtrip (f : List Byte) (rate bits d : Nat) (s : List Byte) (w : WavData)
    (hseek : seek_data f = .ok (rate, bits, d, s)) (hw : load_wav (some f) = .ok w) :
    w.samples.map encode_pcm = (pcm_words s).take (d / 2) ∧
      ∀ v : Int, -32768 ≤ v → v ≤ 32767 → encode_pcm (pcm_to_float v) = v := by
  refine ⟨?_, fun v _ _ => encode_pcm_pcm_to_float v⟩
  obtain ⟨rate', bits', d', s', hs', _, hw'⟩ := load_wav_ok f w hw
  rw [hseek] at hs'
  simp only [Except.ok.injEq, Prod.mk.injEq] at hs'
  obtain ⟨_, _, rfl, rfl⟩ := hs'
  rw [hw']
  simp only [read_samples_eq, List.map_map]
  have : (encode_pcm ∘ pcm_to_float) = id := funext encode_pcm_pcm_to_float
  rw [this, List.map_id]

/-- C3 on the minimal file: the samples `[0.5, -0.5]` re-encode to the words
`[16384, -16384]`. -/
theorem load_wav_roundtrip_witness :
    List.map encode_pcm [1 / 2, -1 / 2] = [16384, -16384] := by
  have h := (load_wav_roundtrip minimal_wav 16000 16 4 [0x00, 0x40, 0x00, 0xC0]
    { samples := [1 / 2, -1 / 2], sample_rate := 16000 }
    (seek_data_canonical [40, 0, 0, 0] [1, 0] [0x80, 0x3E, 0, 0] [0x00, 0x7D, 0, 0] [2, 0]
      [4, 0, 0, 0] [0x00, 0x40, 0x00, 0xC0] rfl rfl rfl rfl rfl rfl)
    minimal_wav_decodes).1
  rw [h]
  decide

/-- C4. Every sample `load_wav` returns lies in `[-1, 1)`. -/
theorem load_wav_sample_range (f : List Byte) (w : WavData) (h : load_wav (some f) = .ok w) :
    ∀ x ∈ w.samples, -1 ≤ x ∧ x < 1 := by
  obtain ⟨rate, bits, d, s, _, _, hw⟩ := load_wav_ok f w h
  intro x hx
  rw [hw] at hx
  simp only [read_samples_eq, List.mem_map] at hx
  obtain ⟨v, hv, rfl⟩ := hx
  obtain ⟨hlo, hhi⟩ := pcm_words_bounds s v (List.mem_of_mem_take hv)
  have hlo' : (-32768 : ℚ) ≤ (v : ℚ) := by exact_mod_cast hlo
  have hhi' : (v : ℚ) ≤ 32767 := by exact_mod_cast hhi
  unfold pcm_to_float
  constructor
  · rw [le_div_iff₀ (by norm_num)]; linarith
  · rw [div_lt_iff₀ (by norm_num)]; linarith

/-- C4 on the minimal file: its samples `0.5` and `-0.5` lie in `[-1, 1)`. -/
theorem load_wav_sample_range_witness :
    (-1 ≤ (1 / 2 : ℚ) ∧ (1 / 2 : ℚ) < 1) ∧ (-1 ≤ (-1 / 2 : ℚ) ∧ (-1 / 2 : ℚ) < 1) :=
  ⟨load_wav_sample_range minimal_wav { samples := [1 / 2, -1 / 2], sample_rate := 16000 }
      minimal_wav_decodes (1 / 2) (by simp),
    load_wav_sample_range minimal_wav { samples := [1 / 2, -1 / 2], sample_rate := 16000 }
      minimal_wav_decodes (-1 / 2) (by simp)⟩

/-! ## C5, C6: the format check and the empty data chunk -/

/-- C5. With a valid envelope, when the scan finds a `fmt ` chunk of declared size at
least 16 whose 16 descriptor bytes are all present and whose audio format is not 1 or
whose bits per sample are not 16, `load_wav` fails with `UnsupportedFormat`, whatever
bytes `rest` follow the descriptor. -/
theorem load_wav_unsupported (sz body desc rest : List Byte) (fmt_size : Nat)
    (hsz : sz.length = 4)
    (hfind : find_chunk fmt_lit body = some (fmt_size, desc ++ rest))
    (hsize : 16 ≤ fmt_size) (hdesc : desc.length = 16)
    (hbad : le_value (desc.take 2) ≠ 1 ∨ le_value (desc.drop 14) ≠ 16) :
    load_wav (some (RIFF ++ sz ++ WAVE ++ body)) = .error .UnsupportedFormat := by
  simp only [load_wav, load_wav_alloc, seek_data_envelope sz body hsz, locate_data, hfind,
    read_fmt_descriptor fmt_size desc rest hsize hdesc, if_pos hbad]

/-- C5 on a file whose fmt chunk claims 8 bits per sample. -/
theorem load_wav_unsupported_witness :
    load_wav (some eight_bit_wav) = .error .UnsupportedFormat :=
  load_wav_unsupported [40, 0, 0, 0]
    (fmt_tag ++ [16, 0, 0, 0] ++
      ([1, 0, 1, 0, 0x80, 0x3E, 0, 0, 0x80, 0x3E, 0, 0, 1, 0, 8, 0] ++
        (data_tag ++ [4, 0, 0, 0] ++ [0x00, 0x40, 0x00, 0xC0])))
    [1, 0, 1, 0, 0x80, 0x3E, 0, 0, 0x80, 0x3E, 0, 0, 1, 0, 8, 0]
    (data_tag ++ [4, 0, 0, 0] ++ [0x00, 0x40, 0x00, 0xC0]) 16 rfl
    (find_chunk_fmt_found [16, 0, 0, 0] _ rfl) (by decide) rfl (by decide)

/-- C6. When `load_wav` reaches a data chunk (valid envelope, valid fmt chunk, first
`data` tag of the scan after it) whose declared size `d` has `d / 2 = 0`, it fails with
`EmptyAudio`, whatever stream `s` follows the data chunk header. -/
theorem load_wav_empty_audio (f : List Byte) (rate bits d : Nat) (s : List Byte)
    (hseek : seek_data f = .ok (rate, bits, d, s)) (hd : d / 2 = 0) :
    load_wav (some f) = .error .EmptyAudio := by
  rw [load_wav_of_seek_data f rate bits d s hseek, if_pos hd]

/-- C6 on a file whose data chunk declares size 1 and is followed by 4 bytes. -/
theorem load_wav_empty_audio_witness :
    load_wav (some empty_data_wav) = .error .EmptyAudio :=
  load_wav_empty_audio empty_data_wav 16000 16 1 [0x00, 0x40, 0x00, 0xC0]
    (seek_data_canonical [40, 0, 0, 0] [1, 0] [0x80, 0x3E, 0, 0] [0x00, 0x7D, 0, 0] [2, 0]
      [1, 0, 0, 0] [0x00, 0x40, 0x00, 0xC0] rfl rfl rfl rfl rfl rfl)
    (by decide)

/-! ## C7: skipping a chunk -/

/-- C7. Let `c = tag ++ szb ++ payload` be a chunk whose payload has exactly the
declared number of bytes.  Behind any 12 header bytes `hdr`: when `tag` is not `fmt `,
inserting `c` right after the header does not change the result of `load_wav`; and when
`tag` is not `data`, inserting `c` right after the fmt chunk the scan stops at (a chunk
with its complete payload `fp`) does not change the result either. -/
theorem load_wav_skip_chunk (hdr tag szb payload : List Byte) (hhdr : hdr.length = 12)
    (htag : tag.length = 4) (hszb : szb.length = 4) (hpay : payload.length = le_value szb) :
    (tag ≠ fmt_tag → ∀ body : List Byte,
      load_wav (some (hdr ++ (tag ++ szb ++ payload) ++ body)) = load_wav (some (hdr ++ body))) ∧
    (tag ≠ data_tag → ∀ pre fszb fp rest : List Byte, fszb.length = 4 →
      fp.length = le_value fszb →
      find_chunk fmt_lit (pre ++ fmt_tag ++ fszb ++ fp ++ rest) =
        some (le_value fszb, fp ++ rest) →
      load_wav (some (hdr ++ pre ++ fmt_tag ++ fszb ++ fp ++ (tag ++ szb ++ payload) ++ rest)) =
        load_wav (some (hdr ++ pre ++ fmt_tag ++ fszb ++ fp ++ rest))) := by
  have hdrop : ∀ rest : List Byte, (payload ++ rest).drop (le_value szb) = rest :=
    fun rest => List.drop_left' hpay
  constructor
  · intro hne body
    have e : hdr ++ (tag ++ szb ++ payload) ++ body = hdr ++ (tag ++ szb ++ (payload ++ body)) := by
      simp only [List.append_assoc]
    rw [e]
    apply load_wav_congr_body hdr _ _ hhdr
    unfold locate_data
    rw [find_chunk_fmt_skip tag szb _ htag hszb hne, hdrop]
  · intro hne pre fszb fp rest hfszb hfp hfind
    have e1 : hdr ++ pre ++ fmt_tag ++ fszb ++ fp ++ (tag ++ szb ++ payload) ++ rest =
        hdr ++ ((pre ++ fmt_tag ++ fszb) ++ (fp ++ (tag ++ szb ++ (payload ++ rest)))) := by
      simp only [List.append_assoc]
    have e2 : hdr ++ pre ++ fmt_tag ++ fszb ++ fp ++ rest =
        hdr ++ ((pre ++ fmt_tag ++ fszb) ++ (fp ++ rest)) := by
      simp only [List.append_assoc]
    have e3 : pre ++ fmt_tag ++ fszb ++ fp ++ rest = (pre ++ fmt_tag ++ fszb) ++ (fp ++ rest) := by
      simp only [List.append_assoc]
    rw [e3] at hfind
    have hfind' := find_chunk_consumed fmt_lit _ (pre ++ fmt_tag ++ fszb) (le_refl _) (fp ++ rest)
      (le_value fszb) hfind (fp ++ (tag ++ szb ++ (payload ++ rest)))
    rw [e1, e2]
    apply load_wav_congr_body hdr _ _ hhdr
    unfold locate_data
    rw [hfind, hfind']
    simp only
    rcases read_fmt_complete (le_value fszb) fp hfp (tag ++ szb ++ (payload ++ rest)) rest with
      ⟨e, h1, h2⟩ | ⟨r, b, h1, h2⟩
    · rw [h1, h2]
    · rw [h1, h2]
      simp only
      rw [find_chunk_data_skip tag szb _ htag hszb hne, hdrop]

/-- C7 on the minimal file: a `LIST` chunk of 2 payload bytes inserted after `WAVE`, or
after the fmt chunk, leaves the result as it is. -/
theorem load_wav_skip_chunk_witness :
    load_wav (some list_before_fmt_wav) = load_wav (some minimal_wav) ∧
      load_wav (some list_after_fmt_wav) = load_wav (some minimal_wav) := by
  have h := load_wav_skip_chunk (RIFF ++ [40, 0, 0, 0] ++ WAVE) LIST_tag [2, 0, 0, 0]
    [0xAA, 0xBB] (by decide) (by decide) (by decide) (by decide)
  have e0 : minimal_wav = (RIFF ++ [40, 0, 0, 0] ++ WAVE) ++ (fmt_tag ++ [16, 0, 0, 0] ++
      [1, 0] ++ [1, 0] ++ [0x80, 0x3E, 0, 0] ++ [0x00, 0x7D, 0, 0] ++ [2, 0] ++ [16, 0] ++
      data_tag ++ [4, 0, 0, 0] ++ [0x00, 0x40, 0x00, 0xC0]) := by decide
  have e1 : list_before_fmt_wav = (RIFF ++ [40, 0, 0, 0] ++ WAVE) ++
      (LIST_tag ++ [2, 0, 0, 0] ++ [0xAA, 0xBB]) ++ (fmt_tag ++ [16, 0, 0, 0] ++
      [1, 0] ++ [1, 0] ++ [0x80, 0x3E, 0, 0] ++ [0x00, 0x7D, 0, 0] ++ [2, 0] ++ [16, 0] ++
      data_tag ++ [4, 0, 0, 0] ++ [0x00, 0x40, 0x00, 0xC0]) := by decide
  have e2 : minimal_wav = (RIFF ++ [40, 0, 0, 0] ++ WAVE) ++ [] ++ fmt_tag ++ [16, 0, 0, 0] ++
      [1, 0, 1, 0, 0x80, 0x3E, 0, 0, 0x00, 0x7D, 0, 0, 2, 0, 16, 0] ++
      (data_tag ++ [4, 0, 0, 0] ++ [0x00, 0x40, 0x00, 0xC0]) := by decide
  have e3 : list_after_fmt_wav = (RIFF ++ [40, 0, 0, 0] ++ WAVE) ++ [] ++ fmt_tag ++
      [16, 0, 0, 0] ++ [1, 0, 1, 0, 0x80, 0x3E, 0, 0, 0x00, 0x7D, 0, 0, 2, 0, 16, 0] ++
      (LIST_tag ++ [2, 0, 0, 0] ++ [0xAA, 0xBB]) ++
      (data_tag ++ [4, 0, 0, 0] ++ [0x00, 0x40, 0x00, 0xC0]) := by decide
  refine ⟨?_, ?_⟩
  · rw [e1, e0]
    exact h.1 (by decide) _
  · rw [e3, e2]
    exact h.2 (by decide) [] [16, 0, 0, 0]
      [1, 0, 1, 0, 0x80, 0x3E, 0, 0, 0x00, 0x7D, 0, 0, 2, 0, 16, 0]
      (data_tag ++ [4, 0, 0, 0] ++ [0x00, 0x40, 0x00, 0xC0]) (by decide) (by decide)
      (find_chunk_fmt_found [16, 0, 0, 0] _ (by decide))

/-! ## C8: a data chunk before the fmt chunk -/

/-- C8, counterexample. A well-formed data chunk, then a valid 16-bit PCM fmt chunk,
then the end of the file: `load_wav` does not return the samples of the data chunk, it
fails with `MissingDataChunk`. -/
theorem load_wav_data_first_fails :
    load_wav (some data_first_wav) = .error .MissingDataChunk := by
  have e : data_first_wav = RIFF ++ [40, 0, 0, 0] ++ WAVE ++
      (data_tag ++ [4, 0, 0, 0] ++ ([0x00, 0x40, 0x00, 0xC0] ++ (fmt_tag ++ [16, 0, 0, 0] ++
        ([1, 0, 1, 0, 0x80, 0x3E, 0, 0, 0x00, 0x7D, 0, 0, 2, 0, 16, 0] ++ [])))) := by
    decide
  have hskip : find_chunk fmt_lit (data_tag ++ [4, 0, 0, 0] ++ ([0x00, 0x40, 0x00, 0xC0] ++
      (fmt_tag ++ [16, 0, 0, 0] ++
        ([1, 0, 1, 0, 0x80, 0x3E, 0, 0, 0x00, 0x7D, 0, 0, 2, 0, 16, 0] ++ [])))) =
      some (16, [1, 0, 1, 0, 0x80, 0x3E, 0, 0, 0x00, 0x7D, 0, 0, 2, 0, 16, 0] ++ []) := by
    rw [find_chunk_fmt_skip data_tag [4, 0, 0, 0] _ (by decide) (by decide) (by decide)]
    exact find_chunk_fmt_found [16, 0, 0, 0] _ (by decide)
  rw [e]
  simp only [load_wav, load_wav_alloc, seek_data_envelope _ _ (by decide : ([40, 0, 0, 0] : List Byte).length = 4),
    locate_data, hskip]
  rw [read_fmt_descriptor 16 _ [] (le_refl 16) (by decide)]
  have h1 : le_value (List.take 2
      ([1, 0, 1, 0, 0x80, 0x3E, 0, 0, 0x00, 0x7D, 0, 0, 2, 0, 16, 0] : List Byte)) = 1 := by
    decide
  have h2 : le_value (List.drop 14
      ([1, 0, 1, 0, 0x80, 0x3E, 0, 0, 0x00, 0x7D, 0, 0, 2, 0, 16, 0] : List Byte)) = 16 := by
    decide
  simp only [h1, h2, ne_eq, not_true_eq_false, or_self, if_false, List.drop_nil]
  rw [find_chunk_short data_lit [] (by decide)]

/-- C8, as the code has it. With a valid envelope, when a well-formed data chunk lies
before the fmt chunk the scan stops at, that fmt chunk is valid 16-bit PCM with all 16
descriptor bytes, and the chunk walk behind the fmt chunk meets no `data` tag,
`load_wav` fails with `MissingDataChunk`: the data chunk before `fmt ` is passed over
and the stream is never taken back to it. -/
theorem load_wav_data_before_fmt (sz pre dszb payload tail desc after : List Byte)
    (fmt_size : Nat) (hsz : sz.length = 4) (_hdszb : dszb.length = 4)
    (_hpay : payload.length = le_value dszb) (_h2 : 2 ≤ le_value dszb)
    (hfind : find_chunk fmt_lit (pre ++ data_tag ++ dszb ++ payload ++ tail) =
      some (fmt_size, desc ++ after))
    (_hpos : (desc ++ after).length + 8 ≤ tail.length)
    (hsize : 16 ≤ fmt_size) (hdesc : desc.length = 16)
    (hformat : le_value (desc.take 2) = 1) (hbits : le_value (desc.drop 14) = 16)
    (hnone : WalkExhausts data_tag (after.drop (fmt_size - 16))) :
    load_wav (some (RIFF ++ sz ++ WAVE ++ (pre ++ data_tag ++ dszb ++ payload ++ tail))) =
      .error .MissingDataChunk := by
  simp only [load_wav, load_wav_alloc, seek_data_envelope sz _ hsz, locate_data, hfind,
    read_fmt_descriptor fmt_size desc after hsize hdesc, hformat, hbits, ne_eq,
    not_true_eq_false, or_self, if_false, (find_chunk_data_none_iff _).mpr hnone]

/-- C8 on `data_first_wav`. -/
theorem load_wav_data_before_fmt_witness :
    load_wav (some (RIFF ++ [40, 0, 0, 0] ++ WAVE ++ ([] ++ data_tag ++ [4, 0, 0, 0] ++
      [0x00, 0x40, 0x00, 0xC0] ++ (fmt_tag ++ [16, 0, 0, 0] ++
        [1, 0, 1, 0, 0x80, 0x3E, 0, 0, 0x00, 0x7D, 0, 0, 2, 0, 16, 0])))) =
      .error .MissingDataChunk :=
  load_wav_data_before_fmt [40, 0, 0, 0] [] [4, 0, 0, 0] [0x00, 0x40, 0x00, 0xC0]
    (fmt_tag ++ [16, 0, 0, 0] ++ [1, 0, 1, 0, 0x80, 0x3E, 0, 0, 0x00, 0x7D, 0, 0, 2, 0, 16, 0])
    [1, 0, 1, 0, 0x80, 0x3E, 0, 0, 0x00, 0x7D, 0, 0, 2, 0, 16, 0] [] 16
    (by decide) (by decide) (by decide) (by decide) (by decide) (by decide) (by decide)
    (by decide) (by decide) (by decide) (.short _ (by decide))

/-! ## C9, C10: the envelope and the missing chunks -/

/-- C9. On every byte stream `load_wav` fails with `MalformedContainer` exactly when
the first 4 bytes are not `RIFF` or bytes 8..11 are not `WAVE`, as exact 4-byte strings;
a stream too short to hold them is among these. -/
theorem load_wav_malformed_iff (f : List Byte) :
    load_wav (some f) = .error .MalformedContainer ↔
      (f.take 4 ≠ RIFF ∨ (f.drop 8).take 4 ≠ WAVE) := by
  simp only [load_wav, load_wav_alloc, seek_data, read_riff_header_eq]
  by_cases c1 : f.take 4 = RIFF
  · by_cases c2 : (f.drop 8).take 4 = WAVE
    · simp only [c1, c2, ne_eq, not_true_eq_false, if_false, or_self, iff_false]
      cases hl : locate_data (f.drop 12) with
      | error e =>
        rcases locate_data_error _ _ hl with h | h | h | h <;> simp [h]
      | ok r =>
        obtain ⟨rate, bits, d, s⟩ := r
        simp only [read_pcm, if_true]
        split <;> simp
    · simp [c1, c2]
  · simp [c1]

/-- C10. With a valid envelope: when the chunk walk from offset 12 runs out of stream
(a partial header included) without meeting `fmt `, `load_wav` fails with
`MissingFormatChunk`; when a fmt chunk was found and accepted and the chunk walk behind
it runs out of stream without meeting `data`, `load_wav` fails with
`MissingDataChunk`. -/
theorem load_wav_missing_chunk (sz body : List Byte) (hsz : sz.length = 4) :
    (WalkExhausts fmt_tag body →
      load_wav (some (RIFF ++ sz ++ WAVE ++ body)) = .error .MissingFormatChunk) ∧
    (∀ (fmt_size rate bits : Nat) (s1 s2 : List Byte),
      find_chunk fmt_lit body = some (fmt_size, s1) →
      read_fmt fmt_size s1 = .ok (rate, bits, s2) →
      WalkExhausts data_tag s2 →
      load_wav (some (RIFF ++ sz ++ WAVE ++ body)) = .error .MissingDataChunk) := by
  constructor
  · intro h
    simp only [load_wav, load_wav_alloc, seek_data_envelope sz body hsz, locate_data,
      (find_chunk_fmt_none_iff body).mpr h]
  · intro fmt_size rate bits s1 s2 hfind hfmt h
    simp only [load_wav, load_wav_alloc, seek_data_envelope sz body hsz, locate_data, hfind, hfmt,
      (find_chunk_data_none_iff s2).mpr h]

/-- C10 on `no_fmt_wav`, a `LIST` chunk and then a partial header, and on
`no_data_wav`, a valid fmt chunk and then a `LIST` chunk. -/
theorem load_wav_missing_chunk_witness :
    load_wav (some no_fmt_wav) = .error .MissingFormatChunk ∧
      load_wav (some no_data_wav) = .error .MissingDataChunk := by
  have w1 : WalkExhausts fmt_tag (LIST_tag ++ [2, 0, 0, 0] ++ [0xAA, 0xBB, 0x66, 0x6D, 0x74]) :=
    .skip LIST_tag [2, 0, 0, 0] _ (by decide) (by decide) (by decide) (.short _ (by decide))
  have w2 : WalkExhausts data_tag (LIST_tag ++ [2, 0, 0, 0] ++ [0xAA, 0xBB]) :=
    .skip LIST_tag [2, 0, 0, 0] _ (by decide) (by decide) (by decide) (.short _ (by decide))
  have e1 : no_fmt_wav = RIFF ++ [40, 0, 0, 0] ++ WAVE ++
      (LIST_tag ++ [2, 0, 0, 0] ++ [0xAA, 0xBB, 0x66, 0x6D, 0x74]) := by decide
  have e2 : no_data_wav = RIFF ++ [40, 0, 0, 0] ++ WAVE ++ (fmt_tag ++ [16, 0, 0, 0] ++
      ([1, 0, 1, 0, 0x80, 0x3E, 0, 0, 0x00, 0x7D, 0, 0, 2, 0, 16, 0] ++
        (LIST_tag ++ [2, 0, 0, 0] ++ [0xAA, 0xBB]))) := by decide
  refine ⟨?_, ?_⟩
  · rw [e1]
    exact (load_wav_missing_chunk [40, 0, 0, 0] _ (by decide)).1 w1
  · rw [e2]
    exact (load_wav_missing_chunk [40, 0, 0, 0] _ (by decide)).2 16 16000 16
      ([1, 0, 1, 0, 0x80, 0x3E, 0, 0, 0x00, 0x7D, 0, 0, 2, 0, 16, 0] ++
        (LIST_tag ++ [2, 0, 0, 0] ++ [0xAA, 0xBB]))
      (LIST_tag ++ [2, 0, 0, 0] ++ [0xAA, 0xBB])
      (find_chunk_fmt_found [16, 0, 0, 0] _ (by decide)) (by rfl) w2

/-! ## The scan up to the header it stops at -/

/-- When the scan of `pre ++ h ++ x` stops at the 8-byte header `h`, the bytes of `pre`
are whole chunks that it passes over: on every `pre ++ y` the scan goes on with `y`. -/
theorem find_chunk_walk (lit : List Byte) : ∀ (k : Nat) (pre : List Byte), pre.length ≤ k →
    ∀ (h x : List Byte) (n : Nat), h.length = 8 →
    find_chunk lit (pre ++ (h ++ x)) = some (n, x) →
    ∀ y : List Byte, find_chunk lit (pre ++ y) = find_chunk lit y := by
  intro k
  induction k with
  | zero =>
    intro pre hpre h x n _ _ y
    have : pre = [] := List.length_eq_zero.mp (by omega)
    subst this
    rfl
  | succ k ih =>
    intro pre hpre h x n hh hfind y
    by_cases hnil : pre.length = 0
    · have : pre = [] := List.length_eq_zero.mp hnil
      subst this
      rfl
    · obtain ⟨id, szb, r, hid, hsz, hsplit⟩ := split_header (pre ++ (h ++ x))
        (by simp only [List.length_append]; omega)
      have hrlen : r.length + 8 = pre.length + 8 + x.length := by
        have := congrArg List.length hsplit
        simp only [List.length_append, hid, hsz, hh] at this
        omega
      rw [hsplit, find_chunk_eq lit id szb r hid hsz] at hfind
      by_cases hc : strncmp id lit 4 = 0
      · rw [if_pos hc] at hfind
        simp only [Option.some.injEq, Prod.mk.injEq] at hfind
        have := congrArg List.length hfind.2
        omega
      · rw [if_neg hc] at hfind
        have hl := find_chunk_length lit _ _ (le_refl _) n x hfind
        simp only [List.length_drop] at hl
        have h8 : 8 ≤ pre.length := by omega
        obtain ⟨id', szb', pre', hid', hsz', rfl⟩ := split_header pre h8
        have e : id' ++ szb' ++ pre' ++ (h ++ x) = id' ++ szb' ++ (pre' ++ (h ++ x)) := by
          simp only [List.append_assoc]
        rw [e] at hsplit
        have hpre' : pre'.length + 8 = (id' ++ szb' ++ pre').length := by
          simp only [List.length_append, hid', hsz']; omega
        have e4 : id' = id := by
          have := congrArg (List.take 4) hsplit
          rw [List.append_assoc, List.take_left' hid', List.append_assoc,
            List.take_left' hid] at this
          exact this
        have e8 : szb' ++ (pre' ++ (h ++ x)) = szb ++ r := by
          have := congrArg (List.drop 4) hsplit
          rw [List.append_assoc, List.drop_left' hid', List.append_assoc,
            List.drop_left' hid] at this
          exact this
        have e5 : szb' = szb := by
          have := congrArg (List.take 4) e8
          rw [List.take_left' hsz', List.take_left' hsz] at this
          exact this
        have e6 : pre' ++ (h ++ x) = r := by
          have := congrArg (List.drop 4) e8
          rw [List.drop_left' hsz', List.drop_left' hsz] at this
          exact this
        subst e4 e5
        rw [← e6] at hfind hl
        simp only [List.length_append, hh] at hl
        have hle : le_value szb' ≤ pre'.length := by omega
        rw [List.drop_append_of_le_length hle] at hfind
        have ey : id' ++ szb' ++ pre' ++ y = id' ++ szb' ++ (pre' ++ y) := by
          simp only [List.append_assoc]
        rw [ey, find_chunk_eq lit id' szb' _ hid' hsz', if_neg hc,
          List.drop_append_of_le_length hle]
        simp only [List.length_append, hid', hsz'] at hpre
        exact ih (pre'.drop (le_value szb')) (by simp; omega) h x n hh hfind y

/-- Lines 64-90 in closed form on any stream, short or not: the audio format is what
could be read of bytes 0-1, the sample rate of bytes 4-7, the bits per sample of bytes
14-15. -/
theorem read_fmt_eq (chunk_size : Nat) (s : List Byte) :
    read_fmt chunk_size s =
      if chunk_size < 16 then .error .FormatChunkTooSmall
      else if le_value (s.take 2) ≠ 1 ∨ le_value ((s.drop 14).take 2) ≠ 16 then
        .error .UnsupportedFormat
      else .ok (le_value ((s.drop 4).take 4), le_value ((s.drop 14).take 2),
        (s.drop 16).drop (chunk_size - 16)) := by
  unfold read_fmt
  simp only [List.drop_drop]
  by_cases h : chunk_size < 16
  · simp only [h, if_true]
  · simp only [h, if_false]
    by_cases h16 : chunk_size > 16
    · simp only [h16, if_true]
    · have : chunk_size - 16 = 0 := by omega
      simp only [h16, if_false, this, List.drop_zero]

/-! ## C11, C12: the declared size of the fmt chunk -/

/-- C11. With a valid envelope, when the scan stops at a `fmt ` chunk of declared size
below 16, `load_wav` fails with `FormatChunkTooSmall`, whatever bytes `s1` follow the
chunk header: the size is checked before any descriptor field is read. -/
theorem load_wav_fmt_too_small (sz body s1 : List Byte) (fmt_size : Nat)
    (hsz : sz.length = 4) (hfind : find_chunk fmt_lit body = some (fmt_size, s1))
    (hsmall : fmt_size < 16) :
    load_wav (some (RIFF ++ sz ++ WAVE ++ body)) = .error .FormatChunkTooSmall := by
  simp only [load_wav, load_wav_alloc, seek_data_envelope sz body hsz, locate_data, hfind, read_fmt_eq,
    if_pos hsmall]

/-- C11 on a file whose fmt chunk declares size 14 and whose payload describes 8-bit
samples: the failure is `FormatChunkTooSmall`, not `UnsupportedFormat`. -/
theorem load_wav_fmt_too_small_witness :
    load_wav (some small_fmt_wav) = .error .FormatChunkTooSmall := by
  have e : small_fmt_wav = RIFF ++ [40, 0, 0, 0] ++ WAVE ++ (fmt_tag ++ [14, 0, 0, 0] ++
      ([1, 0, 1, 0, 0x80, 0x3E, 0, 0, 0x80, 0x3E, 0, 0, 1, 0, 8, 0] ++
        (data_tag ++ [4, 0, 0, 0] ++ [0x00, 0x40, 0x00, 0xC0]))) := by decide
  rw [e]
  exact load_wav_fmt_too_small [40, 0, 0, 0] _ _ 14 (by decide)
    (find_chunk_fmt_found [14, 0, 0, 0] _ (by decide)) (by decide)

/-- C12. Behind any 12 header bytes, when the scan stops at a `fmt ` chunk that declares
size `16 + k`, `k > 0`, and is followed by its 16 descriptor bytes and `k` extension
bytes `ext`, `load_wav` gives the same result as on the input in which the declared
size is 16 and the `k` bytes are taken out, whatever the `k` bytes are. -/
theorem load_wav_extended_fmt (hdr pre fszb desc ext rest : List Byte) (k : Nat)
    (hhdr : hdr.length = 12) (hfszb : fszb.length = 4) (hk : 0 < k)
    (hsize : le_value fszb = 16 + k) (hdesc : desc.length = 16) (hext : ext.length = k)
    (hfind : find_chunk fmt_lit (pre ++ fmt_tag ++ fszb ++ desc ++ ext ++ rest) =
      some (16 + k, desc ++ ext ++ rest)) :
    load_wav (some (hdr ++ pre ++ fmt_tag ++ fszb ++ desc ++ ext ++ rest)) =
      load_wav (some (hdr ++ pre ++ fmt_tag ++ [16, 0, 0, 0] ++ desc ++ rest)) := by
  have e1 : hdr ++ pre ++ fmt_tag ++ fszb ++ desc ++ ext ++ rest =
      hdr ++ (pre ++ (fmt_tag ++ fszb ++ (desc ++ (ext ++ rest)))) := by
    simp only [List.append_assoc]
  have e2 : hdr ++ pre ++ fmt_tag ++ [16, 0, 0, 0] ++ desc ++ rest =
      hdr ++ (pre ++ (fmt_tag ++ [16, 0, 0, 0] ++ (desc ++ rest))) := by
    simp only [List.append_assoc]
  have e3 : pre ++ fmt_tag ++ fszb ++ desc ++ ext ++ rest =
      pre ++ ((fmt_tag ++ fszb) ++ (desc ++ ext ++ rest)) := by
    simp only [List.append_assoc]
  rw [e3] at hfind
  have hwalk := find_chunk_walk fmt_lit _ pre (le_refl _) (fmt_tag ++ fszb)
    (desc ++ ext ++ rest) (16 + k) (by simp [hfszb, fmt_tag]) hfind
  have h16 : le_value ([16, 0, 0, 0] : List Byte) = 16 := by decide
  have hdrop : (ext ++ rest).drop (16 + k - 16) = rest := by
    have : 16 + k - 16 = k := by omega
    rw [this]
    exact List.drop_left' hext
  rw [e1, e2]
  apply load_wav_congr_body hdr _ _ hhdr
  unfold locate_data
  rw [hwalk, hwalk, find_chunk_fmt_found fszb _ hfszb,
    find_chunk_fmt_found [16, 0, 0, 0] _ (by decide), hsize, h16]
  simp only
  rw [read_fmt_descriptor (16 + k) desc (ext ++ rest) (by omega) hdesc,
    read_fmt_descriptor 16 desc rest (le_refl 16) hdesc, hdrop]
  simp only [Nat.sub_self, List.drop_zero]

/-- C12 on the minimal file with two extension bytes in a fmt chunk of size 18: it
decodes as the minimal file does. -/
theorem load_wav_extended_fmt_witness :
    load_wav (some extended_fmt_wav) = load_wav (some minimal_wav) := by
  have e1 : extended_fmt_wav = (RIFF ++ [40, 0, 0, 0] ++ WAVE) ++ [] ++ fmt_tag ++
      [18, 0, 0, 0] ++ [1, 0, 1, 0, 0x80, 0x3E, 0, 0, 0x00, 0x7D, 0, 0, 2, 0, 16, 0] ++
      [0xAA, 0xBB] ++ (data_tag ++ [4, 0, 0, 0] ++ [0x00, 0x40, 0x00, 0xC0]) := by decide
  have e2 : minimal_wav = (RIFF ++ [40, 0, 0, 0] ++ WAVE) ++ [] ++ fmt_tag ++
      [16, 0, 0, 0] ++ [1, 0, 1, 0, 0x80, 0x3E, 0, 0, 0x00, 0x7D, 0, 0, 2, 0, 16, 0] ++
      (data_tag ++ [4, 0, 0, 0] ++ [0x00, 0x40, 0x00, 0xC0]) := by decide
  rw [e1, e2]
  exact load_wav_extended_fmt (RIFF ++ [40, 0, 0, 0] ++ WAVE) [] [18, 0, 0, 0]
    [1, 0, 1, 0, 0x80, 0x3E, 0, 0, 0x00, 0x7D, 0, 0, 2, 0, 16, 0] [0xAA, 0xBB]
    (data_tag ++ [4, 0, 0, 0] ++ [0x00, 0x40, 0x00, 0xC0]) 2
    (by decide) (by decide) (by decide) (by decide) (by decide) (by decide)
    (find_chunk_fmt_found [18, 0, 0, 0] _ (by decide))

/-! ## C13, C14: the fields of the fmt chunk -/

/-- A file of the canonical form whose data chunk holds the words 16384 and -16384. -/
theorem load_wav_two_samples (sz ch rate br ba : List Byte)
    (hsz : sz.length = 4) (hch : ch.length = 2) (hrate : rate.length = 4)
    (hbr : br.length = 4) (hba : ba.length = 2) :
    load_wav (some (RIFF ++ sz ++ WAVE ++ fmt_tag ++ [16, 0, 0, 0] ++ [1, 0] ++ ch ++
        rate ++ br ++ ba ++ [16, 0] ++ data_tag ++ [4, 0, 0, 0] ++ [0x00, 0x40, 0x00, 0xC0])) =
      .ok { samples := [1 / 2, -1 / 2], sample_rate := to_int32 (le_value rate) } := by
  have hs := seek_data_canonical sz ch rate br ba [4, 0, 0, 0] [0x00, 0x40, 0x00, 0xC0]
    hsz hch hrate hbr hba (by decide)
  rw [load_wav_of_seek_data _ _ _ _ _ hs]
  have e4 : le_value ([4, 0, 0, 0] : List Byte) = 4 := by decide
  have e2 : (4 : Nat) / 2 = 2 := rfl
  have v0 : to_int16 (le_value [0x00, 0x40]) = 16384 := by decide
  have v1 : to_int16 (le_value [0x00, 0xC0]) = -16384 := by decide
  simp only [e4, e2, read_samples, v0, v1, pcm_to_float]
  norm_num

/-- The file with the sample rate field `00 00 00 80`, evaluated. -/
theorem high_rate_wav_decodes :
    load_wav (some high_rate_wav) =
      .ok { samples := [1 / 2, -1 / 2], sample_rate := -2147483648 } := by
  have h := load_wav_two_samples [40, 0, 0, 0] [1, 0] [0, 0, 0, 0x80] [0x00, 0x7D, 0, 0] [2, 0]
    (by decide) (by decide) (by decide) (by decide) (by decide)
  have r : to_int32 (le_value ([0, 0, 0, 0x80] : List Byte)) = -2147483648 := by decide
  rw [r] at h
  exact h

/-- C13, counterexample. The sample rate field `00 00 00 80` is the unsigned 32-bit
integer 2147483648; `load_wav` succeeds and returns the sample rate -2147483648. -/
theorem load_wav_high_rate_negative :
    load_wav (some high_rate_wav) =
        .ok { samples := [1 / 2, -1 / 2], sample_rate := -2147483648 } ∧
      le_value ([0, 0, 0, 0x80] : List Byte) = 2147483648 :=
  ⟨high_rate_wav_decodes, by decide⟩

/-- C13, as the code has it. On every input on which `load_wav` succeeds, bytes 4..7 of
the payload of the fmt chunk the scan stops at are all present, and the returned sample
rate is their unsigned little-endian value `u` cast to `int32_t`: `u` itself below
2^31, and `u - 2^32` from 2^31 on. -/
theorem load_wav_sample_rate (f s1 : List Byte) (fmt_size : Nat) (w : WavData)
    (hfind : find_chunk fmt_lit (f.drop 12) = some (fmt_size, s1))
    (hw : load_wav (some f) = .ok w) :
    ((s1.drop 4).take 4).length = 4 ∧
      (le_value ((s1.drop 4).take 4) < 2147483648 →
        w.sample_rate = (le_value ((s1.drop 4).take 4) : Int)) ∧
      (2147483648 ≤ le_value ((s1.drop 4).take 4) →
        w.sample_rate = (le_value ((s1.drop 4).take 4) : Int) - 4294967296) := by
  obtain ⟨rate, bits, d, s, hseek, _, hwe⟩ := load_wav_ok f w hw
  have hloc : locate_data (f.drop 12) = .ok (rate, bits, d, s) := by
    rw [seek_data, read_riff_header_eq] at hseek
    split at hseek
    · exact absurd hseek (by simp)
    · rename_i hr
      split at hr
      · exact absurd hr (by simp)
      · split at hr
        · exact absurd hr (by simp)
        · simp only [Except.ok.injEq] at hr
          rw [hr]
          exact hseek
  unfold locate_data at hloc
  rw [hfind] at hloc
  simp only [read_fmt_eq] at hloc
  split at hloc
  · exact absurd hloc (by simp)
  · rename_i sr bps s2 hfmt
    split at hfmt
    · exact absurd hfmt (by simp)
    · split at hfmt
      · exact absurd hfmt (by simp)
      · simp only [Except.ok.injEq, Prod.mk.injEq] at hfmt
        obtain ⟨hsr, _, hs2⟩ := hfmt
        split at hloc
        · exact absurd hloc (by simp)
        · rename_i d' s' hdata
          simp only [Except.ok.injEq, Prod.mk.injEq] at hloc
          have hlen := find_chunk_length data_lit _ _ (le_refl _) _ _ hdata
          rw [← hs2] at hlen
          simp only [List.length_drop] at hlen
          have hrate : rate = le_value ((s1.drop 4).take 4) := by rw [← hloc.1, ← hsr]
          have hwr : w.sample_rate = to_int32 rate := by rw [hwe]
          rw [hwr, hrate]
          refine ⟨by simp only [List.length_take, List.length_drop]; omega, ?_, ?_⟩
          · intro hlt
            simp only [to_int32, if_pos hlt]
          · intro hge
            have : ¬ le_value ((s1.drop 4).take 4) < 2147483648 := by omega
            simp only [to_int32, if_neg this]

/-- C13 on `high_rate_wav`: the sample rate returned for the field value 2147483648 is
2147483648 - 4294967296. -/
theorem load_wav_sample_rate_witness :
    ∃ w, load_wav (some high_rate_wav) = .ok w ∧
      w.sample_rate = (2147483648 : Int) - 4294967296 := by
  have h := (load_wav_sample_rate high_rate_wav
    ([1, 0] ++ [1, 0] ++ [0, 0, 0, 0x80] ++ [0x00, 0x7D, 0, 0] ++ [2, 0] ++ [16, 0] ++
      data_tag ++ [4, 0, 0, 0] ++ [0x00, 0x40, 0x00, 0xC0]) 16
    { samples := [1 / 2, -1 / 2], sample_rate := -2147483648 }
    (by decide) high_rate_wav_decodes).2.2 (by decide)
  have e : le_value (List.take 4 (List.drop 4
      ([1, 0] ++ [1, 0] ++ [0, 0, 0, 0x80] ++ [0x00, 0x7D, 0, 0] ++ [2, 0] ++ [16, 0] ++
        data_tag ++ [4, 0, 0, 0] ++ [0x00, 0x40, 0x00, 0xC0] : List Byte))) = 2147483648 := by
    decide
  rw [e] at h
  exact ⟨_, high_rate_wav_decodes, h⟩

/-- The fmt chunk with its six fields present: the result depends on the audio format,
the sample rate and the bits per sample only. -/
theorem read_fmt_fields (chunk_size : Nat) (af ch rate br ba bits rest : List Byte)
    (haf : af.length = 2) (hch : ch.length = 2) (hrate : rate.length = 4)
    (hbr : br.length = 4) (hba : ba.length = 2) (hbits : bits.length = 2) :
    read_fmt chunk_size (af ++ ch ++ rate ++ br ++ ba ++ bits ++ rest) =
      if chunk_size < 16 then .error .FormatChunkTooSmall
      else if le_value af ≠ 1 ∨ le_value bits ≠ 16 then .error .UnsupportedFormat
      else .ok (le_value rate, le_value bits, rest.drop (chunk_size - 16)) := by
  match af, ch, rate, br, ba, bits, haf, hch, hrate, hbr, hba, hbits with
  | [_, _], [_, _], [_, _, _, _], [_, _, _, _], [_, _], [_, _], _, _, _, _, _, _ =>
    rw [read_fmt_eq]
    simp

/-- Two streams with the same magics at offsets 0 and 8 on which lines 46-106 end alike
give the same `load_wav`. -/
theorem load_wav_congr_header (hdr1 hdr2 b1 b2 : List Byte) (h1 : hdr1.length = 12)
    (h2 : hdr2.length = 12) (ht : hdr1.take 4 = hdr2.take 4)
    (hd : (hdr1.drop 8).take 4 = (hdr2.drop 8).take 4)
    (hb : locate_data b1 = locate_data b2) :
    load_wav (some (hdr1 ++ b1)) = load_wav (some (hdr2 ++ b2)) := by
  simp only [load_wav, load_wav_alloc, seek_data, read_riff_header_append _ _ h1,
    read_riff_header_append _ _ h2, ht, hd]
  by_cases c1 : hdr2.take 4 = RIFF
  · by_cases c2 : (hdr2.drop 8).take 4 = WAVE
    · simp only [c1, c2, ne_eq, not_true_eq_false, if_false, hb]
    · simp only [c1, c2, ne_eq, not_true_eq_false, not_false_eq_true, if_false, if_true]
  · simp only [c1, ne_eq, not_false_eq_true, if_true]

/-- What the scan returns is the end of the stream it was given. -/
theorem find_chunk_suffix (lit : List Byte) : ∀ (k : Nat) (s : List Byte), s.length ≤ k →
    ∀ n r, find_chunk lit s = some (n, r) → r = s.drop (s.length - r.length) := by
  intro k
  induction k with
  | zero =>
    intro s hk n r h
    rw [find_chunk_short lit s (by omega)] at h
    exact absurd h (by simp)
  | succ k ih =>
    intro s hk n r h
    by_cases h8 : s.length < 8
    · rw [find_chunk_short lit s h8] at h
      exact absurd h (by simp)
    · obtain ⟨id, szb, rest, hid, hsz, rfl⟩ := split_header s (by omega)
      have hlen := find_chunk_length lit _ _ (le_refl _) n r h
      rw [find_chunk_eq lit id szb rest hid hsz] at h
      simp only [List.length_append, hid, hsz] at hk hlen ⊢
      split at h
      · simp only [Option.some.injEq, Prod.mk.injEq] at h
        rw [← h.2]
        have : 4 + 4 + rest.length - rest.length = (id ++ szb).length := by
          simp only [List.length_append, hid, hsz]; omega
        rw [this, List.drop_left]
      · have hd : (rest.drop (le_value szb)).length ≤ rest.length := by simp
        have h2 := ih (rest.drop (le_value szb)) (by omega) n r h
        have hl2 := find_chunk_length lit _ _ (le_refl _) n r h
        simp only [List.length_drop] at h2 hl2
        rw [List.drop_drop] at h2
        have e : 4 + 4 + rest.length - r.length =
            (id ++ szb).length + (rest.length - r.length) := by
          simp only [List.length_append, hid, hsz]; omega
        have e2 : le_value szb + (rest.length - le_value szb - r.length) =
            rest.length - r.length := by omega
        rw [e, List.append_assoc, ← List.append_assoc id, ← List.drop_drop,
          List.drop_left, ← e2]
        exact h2

/-- Two lists with the same entries at the offsets `a ≤ i < a + b` have the same slice
of `b` bytes at offset `a`. -/
theorem slice_eq_of_getElem? (l1 l2 : List Byte) (a b : Nat)
    (h : ∀ i, a ≤ i → i < a + b → l1[i]? = l2[i]?) :
    (l1.drop a).take b = (l2.drop a).take b := by
  apply List.ext_getElem?
  intro i
  simp only [List.getElem?_take, List.getElem?_drop]
  by_cases hi : i < b
  · simp only [hi, if_true]
    exact h (a + i) (by omega) (by omega)
  · simp only [hi, if_false]

/-- Two lists with the same entries from offset `a` on have the same end from `a`. -/
theorem drop_eq_of_getElem? (l1 l2 : List Byte) (a : Nat)
    (h : ∀ i, a ≤ i → l1[i]? = l2[i]?) : l1.drop a = l2.drop a := by
  apply List.ext_getElem?
  intro i
  simp only [List.getElem?_drop]
  exact h (a + i) (by omega)

/-- The fmt chunk is read alike on two streams that have the same bytes 0-1, 4-7 and
from 14 on. -/
theorem read_fmt_congr (n : Nat) (s1 s2 : List Byte) (h0 : s1.take 2 = s2.take 2)
    (h4 : (s1.drop 4).take 4 = (s2.drop 4).take 4) (h14 : s1.drop 14 = s2.drop 14) :
    read_fmt n s1 = read_fmt n s2 := by
  have h16 : s1.drop 16 = s2.drop 16 := by
    have e1 : s1.drop 16 = (s1.drop 14).drop 2 := by rw [List.drop_drop]
    have e2 : s2.drop 16 = (s2.drop 14).drop 2 := by rw [List.drop_drop]
    rw [e1, e2, h14]
  rw [read_fmt_eq, read_fmt_eq, h0, h4, h14, h16]

/-- Lines 27-106 end alike on two inputs with the same magics on which lines 46-106 end
alike. -/
theorem seek_data_congr (f1 f2 : List Byte) (t4 : f1.take 4 = f2.take 4)
    (w4 : (f1.drop 8).take 4 = (f2.drop 8).take 4)
    (hloc : locate_data (f1.drop 12) = locate_data (f2.drop 12)) :
    seek_data f1 = seek_data f2 := by
  simp only [seek_data, read_riff_header_eq, t4, w4]
  by_cases c1 : f2.take 4 = RIFF
  · by_cases c2 : (f2.drop 8).take 4 = WAVE
    · simp only [c1, c2, ne_eq, not_true_eq_false, if_false, hloc]
    · simp only [c1, c2, ne_eq, not_true_eq_false, not_false_eq_true, if_false, if_true]
  · simp only [c1, ne_eq, not_false_eq_true, if_true]

/-- The walk of lines 27-106 is the same on two inputs that differ in discarded bytes
only. -/
theorem seek_data_discarded (f1 f2 : List Byte)
    (hsame : ∀ i, discarded_offset f1 i = false → f1[i]? = f2[i]?) :
    seek_data f1 = seek_data f2 := by
  cases hf : find_chunk fmt_lit (f1.drop 12) with
  | none =>
    have hnd : ∀ i, ¬ (4 ≤ i ∧ i < 8) → f1[i]? = f2[i]? := by
      intro i hi
      apply hsame
      simp only [discarded_offset, fmt_payload_offset, hf, Bool.or_false, Bool.and_eq_false_imp,
        decide_eq_true_eq, decide_eq_false_iff_not]
      intro h4
      omega
    have t4 : f1.take 4 = f2.take 4 := by
      have := slice_eq_of_getElem? f1 f2 0 4 (fun i _ hi => hnd i (by omega))
      simpa using this
    have d8 : f1.drop 8 = f2.drop 8 := drop_eq_of_getElem? f1 f2 8 (fun i hi => hnd i (by omega))
    have d12 : f1.drop 12 = f2.drop 12 := by
      have e1 : f1.drop 12 = (f1.drop 8).drop 4 := by rw [List.drop_drop]
      have e2 : f2.drop 12 = (f2.drop 8).drop 4 := by rw [List.drop_drop]
      rw [e1, e2, d8]
    exact seek_data_congr f1 f2 t4 (by rw [d8]) (by rw [d12])
  | some r =>
    obtain ⟨n, s1⟩ := r
    have hlen := find_chunk_length fmt_lit _ _ (le_refl _) n s1 hf
    have hsuf := find_chunk_suffix fmt_lit _ _ (le_refl _) n s1 hf
    simp only [List.length_drop] at hlen hsuf
    rw [List.drop_drop] at hsuf
    have hp : 12 + (f1.length - 12 - s1.length) = f1.length - s1.length := by omega
    rw [hp] at hsuf
    have hnd : ∀ i, ¬ (4 ≤ i ∧ i < 8) →
        ¬ (f1.length - s1.length + 2 ≤ i ∧ i < f1.length - s1.length + 4) →
        ¬ (f1.length - s1.length + 8 ≤ i ∧ i < f1.length - s1.length + 14) →
        f1[i]? = f2[i]? := by
      intro i h1 h2 h3
      apply hsame
      simp only [discarded_offset, fmt_payload_offset, hf, Bool.or_eq_false_iff,
        Bool.and_eq_false_imp, decide_eq_true_eq, decide_eq_false_iff_not]
      refine ⟨?_, ?_, ?_⟩ <;> intro h <;> omega
    generalize hpdef : f1.length - s1.length = p at hsuf hnd
    have hp20 : 20 ≤ p := by omega
    have t4 : f1.take 4 = f2.take 4 := by
      have := slice_eq_of_getElem? f1 f2 0 4
        (fun i _ hi => hnd i (by omega) (by omega) (by omega))
      simpa using this
    have w4 : (f1.drop 8).take 4 = (f2.drop 8).take 4 :=
      slice_eq_of_getElem? f1 f2 8 4 (fun i h1 h2 => hnd i (by omega) (by omega) (by omega))
    have hA : (f1.drop 12).take (p - 12) = (f2.drop 12).take (p - 12) :=
      slice_eq_of_getElem? f1 f2 12 (p - 12)
        (fun i h1 h2 => hnd i (by omega) (by omega) (by omega))
    have split1 : f1.drop 12 = (f1.drop 12).take (p - 12) ++ f1.drop p := by
      have e : f1.drop p = (f1.drop 12).drop (p - 12) := by
        rw [List.drop_drop]
        congr 1
        omega
      rw [e, List.take_append_drop]
    have split2 : f2.drop 12 = (f1.drop 12).take (p - 12) ++ f2.drop p := by
      have e : f2.drop p = (f2.drop 12).drop (p - 12) := by
        rw [List.drop_drop]
        congr 1
        omega
      rw [e, hA, List.take_append_drop]
    have hfind1 : find_chunk fmt_lit ((f1.drop 12).take (p - 12) ++ f1.drop p) =
        some (n, f1.drop p) := by
      rw [← split1, hf, hsuf]
    have hfind2 := find_chunk_consumed fmt_lit _ _ (le_refl _) _ _ hfind1 (f2.drop p)
    have e0 : (f1.drop p).take 2 = (f2.drop p).take 2 :=
      slice_eq_of_getElem? f1 f2 p 2 (fun i h1 h2 => hnd i (by omega) (by omega) (by omega))
    have e4 : ((f1.drop p).drop 4).take 4 = ((f2.drop p).drop 4).take 4 := by
      rw [List.drop_drop, List.drop_drop]
      exact slice_eq_of_getElem? f1 f2 (p + 4) 4
        (fun i h1 h2 => hnd i (by omega) (by omega) (by omega))
    have e14 : (f1.drop p).drop 14 = (f2.drop p).drop 14 := by
      rw [List.drop_drop, List.drop_drop]
      exact drop_eq_of_getElem? f1 f2 (p + 14)
        (fun i h1 => hnd i (by omega) (by omega) (by omega))
    have hfmt := read_fmt_congr n _ _ e0 e4 e14
    have hloc : locate_data (f1.drop 12) = locate_data (f2.drop 12) := by
      rw [split2]
      unfold locate_data
      rw [hf, hfind2, hsuf]
      simp only [hfmt]
    exact seek_data_congr f1 f2 t4 w4 hloc

/-- C14. Any two inputs that differ only in discarded bytes, which are bytes 4..7 and,
in the payload of the fmt chunk the scan stops at, the channel count, the byte rate and
the block alignment, give the same result of `load_wav`: the same samples and sample
rate or the same failure, whether or not the envelope is valid, a fmt chunk is found
and its descriptor is complete, and whatever memory the run has. -/
theorem load_wav_discarded_fields (f1 f2 : List Byte)
    (hsame : ∀ i, discarded_offset f1 i = false → f1[i]? = f2[i]?) :
    load_wav (some f1) = load_wav (some f2) ∧
      ∀ alloc : Nat → Bool,
        load_wav_alloc alloc (some f1) = load_wav_alloc alloc (some f2) := by
  have h := seek_data_discarded f1 f2 hsame
  have hall : ∀ alloc : Nat → Bool,
      load_wav_alloc alloc (some f1) = load_wav_alloc alloc (some f2) := by
    intro alloc
    simp only [load_wav_alloc, h]
  exact ⟨hall _, hall⟩

/-- Two lists of the same length that have the same entries at the offsets below that
length that satisfy `keep` have the same entries at all offsets that satisfy `keep`. -/
theorem getElem?_eq_of_bounded (l1 l2 : List Byte) (n : Nat) (keep : Nat → Bool)
    (h1 : l1.length = n) (h2 : l2.length = n)
    (h : ∀ i, i < n → keep i = true → l1[i]? = l2[i]?) :
    ∀ i, keep i = true → l1[i]? = l2[i]? := by
  intro i hk
  by_cases hi : i < n
  · exact h i hi hk
  · rw [List.getElem?_eq_none (by omega), List.getElem?_eq_none (by omega)]

/-- C14 on three pairs: the minimal file declared as stereo with another RIFF size, byte
rate and block alignment decodes as the minimal file does, to the flat sequence
`[0.5, -0.5]`; a file without fmt chunk gives the same failure under another RIFF size;
and so does a file that ends inside the fmt descriptor under another channel count,
byte rate and block alignment. -/
theorem load_wav_discarded_fields_witness :
    (load_wav (some stereo_wav) = load_wav (some minimal_wav) ∧
      load_wav (some stereo_wav) =
        .ok { samples := [1 / 2, -1 / 2], sample_rate := 16000 }) ∧
    load_wav (some no_fmt_wav) = load_wav (some no_fmt_resized_wav) ∧
    load_wav (some truncated_fmt_wav) = load_wav (some truncated_fmt_stereo_wav) := by
  have h1 : load_wav (some stereo_wav) = load_wav (some minimal_wav) :=
    (load_wav_discarded_fields stereo_wav minimal_wav (fun i hi =>
      getElem?_eq_of_bounded stereo_wav minimal_wav 48
        (fun i => !discarded_offset stereo_wav i) (by decide) (by decide) (by decide) i
        (by simp [hi]))).1
  have h2 : load_wav (some no_fmt_wav) = load_wav (some no_fmt_resized_wav) :=
    (load_wav_discarded_fields no_fmt_wav no_fmt_resized_wav (fun i hi =>
      getElem?_eq_of_bounded no_fmt_wav no_fmt_resized_wav 25
        (fun i => !discarded_offset no_fmt_wav i) (by decide) (by decide) (by decide) i
        (by simp [hi]))).1
  have h3 : load_wav (some truncated_fmt_wav) = load_wav (some truncated_fmt_stereo_wav) :=
    (load_wav_discarded_fields truncated_fmt_wav truncated_fmt_stereo_wav (fun i hi =>
      getElem?_eq_of_bounded truncated_fmt_wav truncated_fmt_stereo_wav 34
        (fun i => !discarded_offset truncated_fmt_wav i) (by decide) (by decide) (by decide) i
        (by simp [hi]))).1
  exact ⟨⟨h1, h1.trans minimal_wav_decodes⟩, h2, h3⟩

/-! ## C15: termination -/

/-- Every failure of `load_wav` on a file that was opened is one of six. -/
theorem load_wav_error (f : List Byte) (e : WavError) (h : load_wav (some f) = .error e) :
    e = .MalformedContainer ∨ e = .MissingFormatChunk ∨ e = .FormatChunkTooSmall ∨
      e = .UnsupportedFormat ∨ e = .MissingDataChunk ∨ e = .EmptyAudio := by
  simp only [load_wav, load_wav_alloc, seek_data, read_riff_header_eq] at h
  by_cases c1 : f.take 4 = RIFF
  · by_cases c2 : (f.drop 8).take 4 = WAVE
    · simp only [c1, c2, ne_eq, not_true_eq_false, if_false] at h
      cases hl : locate_data (f.drop 12) with
      | error e' =>
        rw [hl] at h
        simp only [Except.error.injEq] at h
        subst h
        rcases locate_data_error _ _ hl with h | h | h | h <;> simp [h]
      | ok r =>
        obtain ⟨rate, bits, d, s⟩ := r
        rw [hl] at h
        simp only [read_pcm, if_true] at h
        split at h
        · simp only [Except.error.injEq] at h
          simp [← h]
        · exact absurd h (by simp)
    · simp only [c1, c2, ne_eq, not_true_eq_false, not_false_eq_true, if_false, if_true,
        Except.error.injEq] at h
      simp [← h]
  · simp only [c1, ne_eq, not_false_eq_true, if_true, Except.error.injEq] at h
    simp [← h]

/-- The run ends with `std::bad_alloc` exactly when the data chunk is reached with a
declared size `d`, `d / 2 ≥ 1`, for whose `d / 2` samples there is no memory. -/
theorem load_wav_alloc_bad_alloc_iff (alloc : Nat → Bool) (f : List Byte) :
    load_wav_alloc alloc (some f) = .error .BadAlloc ↔
      ∃ rate bits d s, seek_data f = .ok (rate, bits, d, s) ∧ d / 2 ≠ 0 ∧
        alloc (d / 2) = false := by
  constructor
  · intro h
    cases hs : seek_data f with
    | error e =>
      simp only [load_wav_alloc, hs, Except.error.injEq] at h
      subst h
      simp only [seek_data, read_riff_header_eq] at hs
      split at hs
      · rename_i hr
        split at hr
        · simp only [Except.error.injEq] at hr
          subst hr
          simp at hs
        · split at hr
          · simp only [Except.error.injEq] at hr
            subst hr
            simp at hs
          · simp at hr
      · rcases locate_data_error _ _ hs with h | h | h | h <;> simp at h
    | ok r =>
      obtain ⟨rate, bits, d, s⟩ := r
      rw [load_wav_alloc_of_seek_data alloc f rate bits d s hs] at h
      refine ⟨rate, bits, d, s, rfl, ?_⟩
      split at h
      · exact absurd h (by simp)
      · rename_i hd
        split at h
        · exact absurd h (by simp)
        · rename_i ha
          exact ⟨hd, by simpa using ha⟩
  · rintro ⟨rate, bits, d, s, hs, hd, ha⟩
    rw [load_wav_alloc_of_seek_data alloc f rate bits d s hs, if_neg hd]
    simp [ha]

/-- Every way through `load_wav_trace` on an opened file: the result is that of
`load_wav_alloc`; the handle events are `fopen`, one `fclose` and then `return` on
success or `std::exit` on each of the seven failures of the decoder; and `fopen` alone
before the process is terminated when `resize` throws. -/
theorem load_wav_trace_eq (alloc : Nat → Bool) (file : List Byte) :
    load_wav_trace alloc (some file) =
      match load_wav_alloc alloc (some file) with
      | .ok w => ([.fopen, .fclose, .ret], .ok w)
      | .error .BadAlloc => ([.fopen, .abort], .error .BadAlloc)
      | .error e => ([.fopen, .fclose, .exit], .error e) := by
  simp only [load_wav_trace, load_wav_alloc, seek_data, read_riff_header, locate_data,
    read_fmt, read_pcm]
  split
  next h => rfl
  next h =>
    split
    next h2 => rfl
    next h2 =>
      simp only []
      split
      next hf => simp only [hf]; rfl
      next cs s1 hf =>
        split
        next h3 => rfl
        next h3 =>
          split
          next h4 => rfl
          next h4 =>
            simp only []
            split
            next hd => simp only [hd]; rfl
            next ds s2 hd =>
              split
              next h5 => simp only [h5, ↓reduceIte]; rfl
              next h5 =>
                split
                next h6 => simp only [h5, h6, ↓reduceIte]; rfl
                next h6 => simp only [h5, h6, ↓reduceIte]; rfl

/-- On the eight ways through `load_wav` that end by `return` or `std::exit` the handle
is closed exactly once before; on the way that ends with the exception of line 115 it
is not closed. -/
theorem load_wav_trace_closes (alloc : Nat → Bool) (file : List Byte) :
    (load_wav_trace alloc (some file)).2 = load_wav_alloc alloc (some file) ∧
      (((load_wav_trace alloc (some file)).1 = [.fopen, .fclose, .ret] ∧
          ∃ w, load_wav_alloc alloc (some file) = .ok w) ∨
        ((load_wav_trace alloc (some file)).1 = [.fopen, .fclose, .exit] ∧
          ∃ e, e ≠ .BadAlloc ∧ load_wav_alloc alloc (some file) = .error e) ∨
        ((load_wav_trace alloc (some file)).1 = [.fopen, .abort] ∧
          load_wav_alloc alloc (some file) = .error .BadAlloc)) := by
  rw [load_wav_trace_eq]
  cases h : load_wav_alloc alloc (some file) with
  | ok w => exact ⟨rfl, Or.inl ⟨rfl, w, rfl⟩⟩
  | error e =>
    cases e with
    | BadAlloc => exact ⟨rfl, Or.inr (Or.inr ⟨rfl, rfl⟩)⟩
    | IoError => exact ⟨rfl, Or.inr (Or.inl ⟨rfl, _, by decide, rfl⟩)⟩
    | MalformedContainer => exact ⟨rfl, Or.inr (Or.inl ⟨rfl, _, by decide, rfl⟩)⟩
    | MissingFormatChunk => exact ⟨rfl, Or.inr (Or.inl ⟨rfl, _, by decide, rfl⟩)⟩
    | FormatChunkTooSmall => exact ⟨rfl, Or.inr (Or.inl ⟨rfl, _, by decide, rfl⟩)⟩
    | UnsupportedFormat => exact ⟨rfl, Or.inr (Or.inl ⟨rfl, _, by decide, rfl⟩)⟩
    | MissingDataChunk => exact ⟨rfl, Or.inr (Or.inl ⟨rfl, _, by decide, rfl⟩)⟩
    | EmptyAudio => exact ⟨rfl, Or.inr (Or.inl ⟨rfl, _, by decide, rfl⟩)⟩

/-- C16, the failing input. On the 48-byte file `huge_data_wav`, in a run in which
`resize` gets memory for at most 2^30 samples, the file is opened, `resize` throws at
line 115 and the process is terminated: `fclose` is called zero times, where each of
the eight other ways through `load_wav` calls it once. -/
theorem load_wav_handle_left_open :
    load_wav_trace (heap_limit 1073741824) (some huge_data_wav) =
        ([.fopen, .abort], .error .BadAlloc) ∧
      List.count FileEvent.fclose
        (load_wav_trace (heap_limit 1073741824) (some huge_data_wav)).1 = 0 := by
  have h : load_wav_alloc (heap_limit 1073741824) (some huge_data_wav) = .error .BadAlloc :=
    (load_wav_alloc_bad_alloc_iff _ _).mpr ⟨16000, 16, 4294967295, [0x00, 0x40, 0x00, 0xC0],
      seek_data_canonical [40, 0, 0, 0] [1, 0] [0x80, 0x3E, 0, 0] [0x00, 0x7D, 0, 0] [2, 0]
        [0xFF, 0xFF, 0xFF, 0xFF] [0x00, 0x40, 0x00, 0xC0] rfl rfl rfl rfl rfl rfl,
      by decide, by decide⟩
  have ht : load_wav_trace (heap_limit 1073741824) (some huge_data_wav) =
      ([.fopen, .abort], .error .BadAlloc) := by
    rw [load_wav_trace_eq, h]
  exact ⟨ht, by rw [ht]; rfl⟩

/-! ## C17, C18, C19: lenient and strict corners -/

/-- The failure `EmptyAudio` comes from the declared size of the data chunk alone. -/
theorem load_wav_empty_audio_iff (f : List Byte) :
    load_wav (some f) = .error .EmptyAudio ↔
      ∃ rate bits d s, seek_data f = .ok (rate, bits, d, s) ∧ d / 2 = 0 := by
  constructor
  · intro h
    cases hs : seek_data f with
    | error e =>
      simp only [load_wav, load_wav_alloc, hs, Except.error.injEq] at h
      subst h
      simp only [seek_data, read_riff_header_eq] at hs
      split at hs
      · rename_i hr
        split at hr
        · simp only [Except.error.injEq] at hr
          subst hr
          simp at hs
        · split at hr
          · simp only [Except.error.injEq] at hr
            subst hr
            simp at hs
          · simp at hr
      · rcases locate_data_error _ _ hs with h | h | h | h <;> simp at h
    | ok r =>
      obtain ⟨rate, bits, d, s⟩ := r
      refine ⟨rate, bits, d, s, rfl, ?_⟩
      rw [load_wav_of_seek_data f rate bits d s hs] at h
      by_contra hd
      rw [if_neg hd] at h
      exact absurd h (by simp)
  · rintro ⟨rate, bits, d, s, hs, hd⟩
    rw [load_wav_of_seek_data f rate bits d s hs, if_pos hd]

/-- C17. A successful decode can be empty.  The file `one_byte_data_wav` (data chunk
declaring 4 bytes, one byte behind its header) decodes to zero samples; so does every
input on which the data chunk is reached with a declared size of at least 2 and fewer
than 2 bytes behind the header; and `EmptyAudio` is raised exactly when the declared
size `d` of the data chunk that is reached has `d / 2 = 0`, whatever was read. -/
theorem load_wav_empty_success :
    load_wav (some one_byte_data_wav) = .ok { samples := [], sample_rate := 16000 } ∧
    (∀ (f : List Byte) (rate bits d : Nat) (s : List Byte),
      seek_data f = .ok (rate, bits, d, s) → 2 ≤ d → s.length < 2 →
      load_wav (some f) = .ok { samples := [], sample_rate := to_int32 rate }) ∧
    (∀ f : List Byte, load_wav (some f) = .error .EmptyAudio ↔
      ∃ rate bits d s, seek_data f = .ok (rate, bits, d, s) ∧ d / 2 = 0) := by
  have hgen : ∀ (f : List Byte) (rate bits d : Nat) (s : List Byte),
      seek_data f = .ok (rate, bits, d, s) → 2 ≤ d → s.length < 2 →
      load_wav (some f) = .ok { samples := [], sample_rate := to_int32 rate } := by
    intro f rate bits d s hs hd hlen
    have hd0 : ¬ d / 2 = 0 := by omega
    rw [load_wav_of_seek_data f rate bits d s hs, if_neg hd0]
    have hl : (read_samples (d / 2) s).length = 0 := by
      rw [read_samples_length]
      have : s.length / 2 = 0 := by omega
      rw [this]
      exact Nat.min_eq_right (Nat.zero_le _)
    rw [List.length_eq_zero.mp hl]
  refine ⟨?_, hgen, load_wav_empty_audio_iff⟩
  have hs := seek_data_canonical [40, 0, 0, 0] [1, 0] [0x80, 0x3E, 0, 0] [0x00, 0x7D, 0, 0]
    [2, 0] [4, 0, 0, 0] [0x00] (by decide) (by decide) (by decide) (by decide) (by decide)
    (by decide)
  have h := hgen _ _ _ _ _ hs (by decide) (by decide)
  have r : to_int32 (le_value ([0x80, 0x3E, 0, 0] : List Byte)) = 16000 := by decide
  rw [r] at h
  exact h

/-- C18. RIFF pad bytes are not honoured.  On the RIFF-conformant file `padded_wav` (a
`LIST` chunk of declared size 1, its pad byte, then the fmt chunk and the data chunk of
the minimal file) `load_wav` fails with `MissingFormatChunk`: the header after the
`LIST` chunk is read at the pad byte, its tag is `00 66 6D 74` and its size 4128, and
the scan runs out of the stream.  The same file without the pad byte decodes to the
samples `[0.5, -0.5]`. -/
theorem load_wav_pad_byte :
    load_wav (some padded_wav) = .error .MissingFormatChunk ∧
      load_wav (some unpadded_wav) =
        .ok { samples := [1 / 2, -1 / 2], sample_rate := 16000 } := by
  constructor
  · have e : padded_wav = RIFF ++ [50, 0, 0, 0] ++ WAVE ++ (LIST_tag ++ [1, 0, 0, 0] ++
        ([0xAA] ++ ([0x00, 0x66, 0x6D, 0x74] ++ [0x20, 16, 0, 0] ++
          ([0, 1, 0, 1, 0, 0x80, 0x3E, 0, 0, 0x00, 0x7D, 0, 0, 2, 0, 16, 0] ++
            (data_tag ++ [4, 0, 0, 0] ++ [0x00, 0x40, 0x00, 0xC0]))))) := by decide
    have h1 : find_chunk fmt_lit (LIST_tag ++ [1, 0, 0, 0] ++
        ([0xAA] ++ ([0x00, 0x66, 0x6D, 0x74] ++ [0x20, 16, 0, 0] ++
          ([0, 1, 0, 1, 0, 0x80, 0x3E, 0, 0, 0x00, 0x7D, 0, 0, 2, 0, 16, 0] ++
            (data_tag ++ [4, 0, 0, 0] ++ [0x00, 0x40, 0x00, 0xC0]))))) = none := by
      rw [find_chunk_fmt_skip LIST_tag [1, 0, 0, 0] _ (by decide) (by decide) (by decide)]
      have hd : List.drop (le_value ([1, 0, 0, 0] : List Byte))
          ([0xAA] ++ ([0x00, 0x66, 0x6D, 0x74] ++ [0x20, 16, 0, 0] ++
            ([0, 1, 0, 1, 0, 0x80, 0x3E, 0, 0, 0x00, 0x7D, 0, 0, 2, 0, 16, 0] ++
              (data_tag ++ [4, 0, 0, 0] ++ [0x00, 0x40, 0x00, 0xC0])))) =
          [0x00, 0x66, 0x6D, 0x74] ++ [0x20, 16, 0, 0] ++
            ([0, 1, 0, 1, 0, 0x80, 0x3E, 0, 0, 0x00, 0x7D, 0, 0, 2, 0, 16, 0] ++
              (data_tag ++ [4, 0, 0, 0] ++ [0x00, 0x40, 0x00, 0xC0])) := by decide
      rw [hd, find_chunk_fmt_skip [0x00, 0x66, 0x6D, 0x74] [0x20, 16, 0, 0] _ (by decide)
        (by decide) (by decide)]
      have h4128 : le_value ([0x20, 16, 0, 0] : List Byte) = 4128 := by decide
      rw [h4128]
      exact find_chunk_short fmt_lit _ (by simp [data_tag])
    rw [e]
    simp only [load_wav, load_wav_alloc, seek_data_envelope [50, 0, 0, 0] _ (by decide), locate_data, h1]
  · have e : unpadded_wav = (RIFF ++ [50, 0, 0, 0] ++ WAVE) ++ (LIST_tag ++ [1, 0, 0, 0] ++
        ([0xAA] ++ (fmt_tag ++ [16, 0, 0, 0] ++ [1, 0] ++ [1, 0] ++
          [0x80, 0x3E, 0, 0] ++ [0x00, 0x7D, 0, 0] ++ [2, 0] ++ [16, 0] ++
          data_tag ++ [4, 0, 0, 0] ++ [0x00, 0x40, 0x00, 0xC0]))) := by decide
    have hloc : locate_data (LIST_tag ++ [1, 0, 0, 0] ++
        ([0xAA] ++ (fmt_tag ++ [16, 0, 0, 0] ++ [1, 0] ++ [1, 0] ++
          [0x80, 0x3E, 0, 0] ++ [0x00, 0x7D, 0, 0] ++ [2, 0] ++ [16, 0] ++
          data_tag ++ [4, 0, 0, 0] ++ [0x00, 0x40, 0x00, 0xC0]))) =
        locate_data (fmt_tag ++ [16, 0, 0, 0] ++ [1, 0] ++ [1, 0] ++
          [0x80, 0x3E, 0, 0] ++ [0x00, 0x7D, 0, 0] ++ [2, 0] ++ [16, 0] ++
          data_tag ++ [4, 0, 0, 0] ++ [0x00, 0x40, 0x00, 0xC0]) := by
      unfold locate_data
      rw [find_chunk_fmt_skip LIST_tag [1, 0, 0, 0] _ (by decide) (by decide) (by decide)]
      rfl
    rw [e, load_wav_congr_body _ _ _ (by decide) hloc]
    have h := load_wav_two_samples [50, 0, 0, 0] [1, 0] [0x80, 0x3E, 0, 0] [0x00, 0x7D, 0, 0]
      [2, 0] (by decide) (by decide) (by decide) (by decide) (by decide)
    have r : to_int32 (le_value ([0x80, 0x3E, 0, 0] : List Byte)) = 16000 := by decide
    rw [r] at h
    simp only [List.append_assoc] at h ⊢
    exact h

/-- C19. With a valid envelope, when the scan stops at a `fmt ` chunk of declared size
at least 16 and at most 14 bytes follow its header, nothing is read into the bits per
sample, which keep their initial 0, and `load_wav` fails with `UnsupportedFormat`; it
yields no samples. -/
theorem load_wav_truncated_fmt (sz body s1 : List Byte) (fmt_size : Nat)
    (hsz : sz.length = 4) (hfind : find_chunk fmt_lit body = some (fmt_size, s1))
    (hsize : 16 ≤ fmt_size) (hshort : s1.length ≤ 14) :
    le_value ((s1.drop 14).take 2) = 0 ∧
      load_wav (some (RIFF ++ sz ++ WAVE ++ body)) = .error .UnsupportedFormat ∧
      ¬ ∃ w, load_wav (some (RIFF ++ sz ++ WAVE ++ body)) = .ok w := by
  have hnil : (s1.drop 14).take 2 = [] := by
    rw [List.drop_eq_nil_of_le hshort]
    rfl
  have hbits : le_value ((s1.drop 14).take 2) = 0 := by rw [hnil]; rfl
  have hres : load_wav (some (RIFF ++ sz ++ WAVE ++ body)) = .error .UnsupportedFormat := by
    have hlt : ¬ fmt_size < 16 := by omega
    have hbad : le_value (s1.take 2) ≠ 1 ∨ le_value ((s1.drop 14).take 2) ≠ 16 :=
      Or.inr (by rw [hbits]; decide)
    simp only [load_wav, load_wav_alloc, seek_data_envelope sz body hsz, locate_data, hfind, read_fmt_eq,
      if_neg hlt, if_pos hbad]
  refine ⟨hbits, hres, ?_⟩
  rintro ⟨w, hw⟩
  rw [hres] at hw
  exact absurd hw (by simp)

/-- C19 on `truncated_fmt_wav`, which ends after 14 bytes of the fmt payload. -/
theorem load_wav_truncated_fmt_witness :
    load_wav (some truncated_fmt_wav) = .error .UnsupportedFormat := by
  have e : truncated_fmt_wav = RIFF ++ [40, 0, 0, 0] ++ WAVE ++ (fmt_tag ++ [16, 0, 0, 0] ++
      [1, 0, 1, 0, 0x80, 0x3E, 0, 0, 0x00, 0x7D, 0, 0, 2, 0]) := by decide
  rw [e]
  exact (load_wav_truncated_fmt [40, 0, 0, 0] _ _ 16 (by decide)
    (find_chunk_fmt_found [16, 0, 0, 0] _ (by decide)) (by decide) (by decide)).2.1

end Moonshine
